import Mathlib

/-!
# GoTagSearch: the tag store over SQLite

A shallow embedding of `database_sqlite3.go`, `model.go` and `nullable_types.go`.

* Go values: `int` is `Int`, `string` is `String` (the list of its bytes where
  the bytes matter, in `NullableString`), a `[]*Tag` is a `List Tag`.
* The store is the content of the three tables created by `Init`, plus the
  `sqlite_sequence` counter of the `AUTOINCREMENT` key of `tag`.
* The storage engine is modelled by what SQLite computes for the statements the
  handlers build: joins are nested loops over the tables, `GROUP BY ... HAVING`
  counts the rows of each group, `INSERT OR IGNORE` skips a row that would break
  a `UNIQUE` constraint.  Text comparison is byte equality (the columns have the
  default `BINARY` collation).
* `checkError` panics: a handler returns `Except Err _`, the error being the
  panic value or the `error` the Go function returns; a handler that writes
  returns the store it leaves together with its `error`.
-/

namespace GoTagSearch

/-! ## model.go -/

/-- Go `sql.NullString`; the string is kept as the list of its bytes. -/
structure NullString where
  String : List Nat
  Valid : Bool
deriving DecidableEq, Repr

/-- Go `NullableString` (embeds `sql.NullString`). -/
structure NullableString where
  NullString : NullString
deriving DecidableEq, Repr

/-- Go `Article`, a row of table `article`. -/
structure Article where
  ID : Int
  Url : String
  Platform : String
  Description : NullableString
  Thumbnail_url : NullableString
deriving DecidableEq, Repr

/-- Go `Tag`, a row of table `tag`.  Field `Type_` is the Go field `Type`
(column `type`, which the handlers only ever fill with integers). -/
structure Tag where
  ID : Int
  Name : String
  Type_ : Int
deriving DecidableEq, Repr

/-- A row of table `article_tag`. -/
structure ArticleTag where
  article_id : Int
  tag_id : Int
deriving DecidableEq, Repr

/-- The `(name, type)` pair of a tag: the columns of `UNIQUE(name, type)`. -/
def Tag.key (t : Tag) : String × Int := (t.Name, t.Type_)

/-- What a handler can fail with: a panic (`checkError`, `panic(...)`, a run-time
panic of the Go library), an `error` value handed back by the storage engine,
or an `error` of `encoding/json`. -/
inductive Err where
  | panic (msg : String)
  | storage (msg : String)
  | json (msg : String)
deriving DecidableEq, Repr

/-- Go `err.Error()`. -/
def Err.message : Err → String
  | Err.panic m => m
  | Err.storage m => m
  | Err.json m => m

deriving instance DecidableEq for Except

/-- A value bound to a `?` parameter (`interface{}` holding a `string`, an `int`
or nothing). -/
inductive SqlValue where
  | null
  | integer (i : Int)
  | text (s : String)
deriving DecidableEq, Repr

/-! ## The store -/

/-- The tables created by `Init`.  `tagSeq` is the `sqlite_sequence` entry of
table `tag` (the largest key `AUTOINCREMENT` has handed out). -/
structure Store where
  article : List Article
  tag : List Tag
  article_tag : List ArticleTag
  tagSeq : Int
deriving DecidableEq, Repr

/-- Column `tag.id` is `INTEGER PRIMARY KEY`: no two rows share it. -/
def Store.TagIdUnique (s : Store) : Prop := (s.tag.map Tag.ID).Nodup

/-- Constraint `UNIQUE(name, type)` of table `tag`. -/
def Store.TagKeyUnique (s : Store) : Prop := (s.tag.map Tag.key).Nodup

/-- Constraint `UNIQUE(article_id, tag_id)` of table `article_tag`. -/
def Store.AssocUnique (s : Store) : Prop := s.article_tag.Nodup

instance (s : Store) : Decidable s.TagIdUnique := by unfold Store.TagIdUnique; infer_instance
instance (s : Store) : Decidable s.TagKeyUnique := by unfold Store.TagKeyUnique; infer_instance
instance (s : Store) : Decidable s.AssocUnique := by unfold Store.AssocUnique; infer_instance

/-! ## Statement texts and bound arguments -/

/-- Go `strings.Repeat(s, count)` for a count that is not negative. -/
def stringsRepeat (s : String) : Nat → String
  | 0 => ""
  | n + 1 => s ++ stringsRepeat s n

/-- Number of `?` parameters of a statement text (none of the statements has a
`?` inside a literal). -/
def placeholderCount (query : String) : Nat := query.data.count '?'

/-- Go `make([]interface{}, n)`: `n` nil interfaces. -/
def makeArgs (n : Nat) : List SqlValue := List.replicate n SqlValue.null

/-- The loop `for i, v := range tags { args[2*i] = v.Name; args[2*i+1] = v.Type }`,
started at index `i`. -/
def fillPairArgs : List Tag → Nat → List SqlValue → List SqlValue
  | [], _, args => args
  | v :: vs, i, args =>
    fillPairArgs vs (i + 1)
      ((args.set (2 * i) (SqlValue.text v.Name)).set (2 * i + 1) (SqlValue.integer v.Type_))

/-- A loop that stores the values `vs` into consecutive slots of a slice,
starting at index `i`: `for i, v := range tags { args[i] = v }`. -/
def assignFrom {α : Type} : List α → Nat → List α → List α
  | [], _, args => args
  | v :: vs, i, args => assignFrom vs (i + 1) (args.set i v)

/-- Statement text of `GetArticlesByTags` for `tag_count ≥ 1`. -/
def getArticlesByTagsQuery (tag_count : Nat) : String :=
  "\n\tSELECT article.* FROM\n\tarticle INNER JOIN\n\t(SELECT article_tag.article_id as id FROM article_tag INNER JOIN tag ON article_tag.tag_id = tag.id WHERE (tag.name, tag.type) IN (VALUES (?,?)"
    ++ stringsRepeat ",(?,?)" (tag_count - 1)
    ++ ") GROUP BY article_tag.article_id HAVING count(*) >= ?) subq\n\tON article.id = subq.id\n\t"

/-- Statement text of `GetArticlesByTagName` for `tag_count ≥ 1`. -/
def getArticlesByTagNameQuery (tag_count : Nat) : String :=
  "\n\tSELECT article.* FROM\n\tarticle INNER JOIN\n\t(SELECT article_tag.article_id as id FROM article_tag INNER JOIN tag ON article_tag.tag_id = tag.id WHERE tag.name IN (?"
    ++ stringsRepeat ",?" (tag_count - 1)
    ++ ") GROUP BY article_tag.article_id HAVING count(*) >= ?) subq\n\tON article.id = subq.id\n\t"

/-- Statement text of `GetArticlesByTagID` for `tag_count ≥ 1`. -/
def getArticlesByTagIDQuery (tag_count : Nat) : String :=
  "\n\tSELECT article.* FROM\n\tarticle INNER JOIN\n\t(SELECT article_id as id FROM article_tag WHERE tag_id IN (?"
    ++ stringsRepeat ",?" (tag_count - 1)
    ++ ") GROUP BY article_id HAVING count(*) >= ?) subq\n\tON article.id = subq.id\n\t"

/-- Bound arguments of `GetArticlesByTags`. -/
def getArticlesByTagsArgs (tags : List Tag) : List SqlValue :=
  (fillPairArgs tags 0 (makeArgs (tags.length * 2 + 1))).set (tags.length * 2)
    (SqlValue.integer tags.length)

/-- Bound arguments of `GetArticlesByTagName`. -/
def getArticlesByTagNameArgs (tags : List String) : List SqlValue :=
  (assignFrom (tags.map SqlValue.text) 0 (makeArgs (tags.length + 1))).set tags.length
    (SqlValue.integer tags.length)

/-- Bound arguments of `GetArticlesByTagID`. -/
def getArticlesByTagIDArgs (tags : List Int) : List SqlValue :=
  (assignFrom (tags.map SqlValue.integer) 0 (makeArgs (tags.length + 1))).set tags.length
    (SqlValue.integer tags.length)

/-! ## The storage engine on the SELECT statements -/

/-- The engine's `GROUP BY id HAVING count(*) >= ?` over the ids of the selected
rows: one output row per distinct id whose number of rows reaches the bound
threshold.  An integer is never `>=` a text or NULL threshold. -/
def groupHaving (ids : List Int) (threshold : SqlValue) : List Int :=
  ids.dedup.filter fun a =>
    match threshold with
    | SqlValue.integer k => decide (k ≤ (ids.count a : Int))
    | _ => false

/-- Rows of `article_tag INNER JOIN tag ON article_tag.tag_id = tag.id`. -/
def Store.joinArticleTagTag (s : Store) : List (ArticleTag × Tag) :=
  s.article_tag.flatMap fun r => (s.tag.filter fun t => t.ID = r.tag_id).map fun t => (r, t)

/-- Rows of `article INNER JOIN subq ON article.id = subq.id`, projected on
`article.*`. -/
def Store.joinArticle (s : Store) (subq : List Int) : List Article :=
  s.article.flatMap fun a => (subq.filter fun i => a.ID = i).map fun _ => a

/-- Groups the bound values two by two: the rows of `VALUES (?,?),(?,?)...`. -/
def pairUp : List SqlValue → List (SqlValue × SqlValue)
  | a :: b :: rest => (a, b) :: pairUp rest
  | _ => []

/-- The engine on the statement of `GetArticlesByTags`: `database/sql` rejects a
call whose argument count differs from the number of parameters; otherwise the
first parameters are the `VALUES` rows and the last one the `HAVING` threshold. -/
def Store.queryArticlesByTags (s : Store) (query : String) (args : List SqlValue) :
    Except Err (List Article) :=
  if placeholderCount query ≠ args.length then
    Except.error (Err.storage "sql: wrong number of arguments")
  else
    let values := pairUp (args.take (args.length - 1))
    let threshold := args.getLastD SqlValue.null
    let selected := s.joinArticleTagTag.filter fun rt =>
      decide ((SqlValue.text rt.2.Name, SqlValue.integer rt.2.Type_) ∈ values)
    Except.ok (s.joinArticle (groupHaving (selected.map fun rt => rt.1.article_id) threshold))

/-- The engine on the statement of `GetArticlesByTagName`. -/
def Store.queryArticlesByTagName (s : Store) (query : String) (args : List SqlValue) :
    Except Err (List Article) :=
  if placeholderCount query ≠ args.length then
    Except.error (Err.storage "sql: wrong number of arguments")
  else
    let values := args.take (args.length - 1)
    let threshold := args.getLastD SqlValue.null
    let selected := s.joinArticleTagTag.filter fun rt =>
      decide (SqlValue.text rt.2.Name ∈ values)
    Except.ok (s.joinArticle (groupHaving (selected.map fun rt => rt.1.article_id) threshold))

/-- The engine on the statement of `GetArticlesByTagID`. -/
def Store.queryArticlesByTagID (s : Store) (query : String) (args : List SqlValue) :
    Except Err (List Article) :=
  if placeholderCount query ≠ args.length then
    Except.error (Err.storage "sql: wrong number of arguments")
  else
    let values := args.take (args.length - 1)
    let threshold := args.getLastD SqlValue.null
    let selected := s.article_tag.filter fun r => decide (SqlValue.integer r.tag_id ∈ values)
    Except.ok (s.joinArticle (groupHaving (selected.map fun r => r.article_id) threshold))

/-! ## The query handlers -/

/-- Go `GetArticlesByTags`.  With no tag, `strings.Repeat` gets the count `-1`
and panics. -/
def GetArticlesByTags (s : Store) (tags : List Tag) : Except Err (List Article) :=
  let tag_count := tags.length
  if tag_count = 0 then Except.error (Err.panic "strings: negative Repeat count")
  else
    let query := getArticlesByTagsQuery tag_count
    let args := getArticlesByTagsArgs tags
    match s.queryArticlesByTags query args with
    | Except.error e => Except.error (Err.panic e.message)
    | Except.ok articles => Except.ok articles

/-- Go `GetArticlesByTagName`. -/
def GetArticlesByTagName (s : Store) (tags : List String) : Except Err (List Article) :=
  let tag_count := tags.length
  if tag_count = 0 then Except.error (Err.panic "strings: negative Repeat count")
  else
    let query := getArticlesByTagNameQuery tag_count
    let args := getArticlesByTagNameArgs tags
    match s.queryArticlesByTagName query args with
    | Except.error e => Except.error (Err.panic e.message)
    | Except.ok articles => Except.ok articles

/-- Go `GetArticlesByTagID`. -/
def GetArticlesByTagID (s : Store) (tags : List Int) : Except Err (List Article) :=
  let tag_count := tags.length
  if tag_count = 0 then Except.error (Err.panic "strings: negative Repeat count")
  else
    let query := getArticlesByTagIDQuery tag_count
    let args := getArticlesByTagIDArgs tags
    match s.queryArticlesByTagID query args with
    | Except.error e => Except.error (Err.panic e.message)
    | Except.ok articles => Except.ok articles


/-! ## The text of the INSERT statements -/

/-- The character that delimits an SQL string literal (U+0027). -/
def quote : Char := Char.ofNat 39

/-- The decimal digit `d` as a character. -/
def digitChar (d : Nat) : Char := Char.ofNat (48 + d)

/-- Decimal digits of `n`, most significant first; `fuel` bounds their number. -/
def natDigits : Nat → Nat → List Char
  | 0, _ => []
  | fuel + 1, n =>
    if n < 10 then [digitChar n] else natDigits fuel (n / 10) ++ [digitChar (n % 10)]

/-- Go `strconv.Itoa`. -/
def Itoa (i : Int) : String :=
  match i with
  | Int.ofNat n => String.mk (natDigits (n + 1) n)
  | Int.negSucc n => String.mk ('-' :: natDigits (n + 2) (n + 1))

/-- Go `query[:len(query)-1]`: the text without its last byte (in both uses
the last byte is the one-byte character `,` or a blank). -/
def cutLast (query : String) : String := String.mk query.data.dropLast

/-- Statement text of `AddTags`. -/
def addTagsQuery (tags : List Tag) : String :=
  let query_buf := tags.foldl
    (fun buf v => buf ++ String.mk ['(', quote] ++ v.Name ++ String.mk [quote, ','] ++ Itoa v.Type_ ++ "),")
    "INSERT OR IGNORE INTO tag (name, type) VALUES "
  cutLast query_buf ++ ";"

/-- Statement text of the association insert of `AttachTagsToArticle`. -/
def attachTagsQuery (article_id : Int) (tags : List Tag) : String :=
  let beg := "(" ++ Itoa article_id ++ ","
  let query_buf := tags.foldl (fun buf v => buf ++ beg ++ Itoa v.ID ++ "),")
    "INSERT OR IGNORE INTO article_tag (article_id, tag_id) VALUES "
  cutLast query_buf ++ ";"

/-- The row of the `VALUES` list that `AddTags` writes for a tag. -/
def tagRowText (v : Tag) : List Char :=
  '(' :: quote :: v.Name.data ++ quote :: ',' :: (Itoa v.Type_).data ++ [')']

/-- The row that `AttachTagsToArticle` writes for a tag. -/
def assocRowText (article_id : Int) (v : Tag) : List Char :=
  '(' :: (Itoa article_id).data ++ ',' :: (Itoa v.ID).data ++ [')']

/-- Statement text of the lookup of `mappingTagID` for `tag_count ≥ 1`. -/
def mappingTagIDQuery (tag_count : Nat) : String :=
  "\n\t\tSELECT * FROM tag WHERE (name, type) IN (VALUES (?,?) "
    ++ stringsRepeat ",(?,?)" (tag_count - 1) ++ ")\n\t"

/-- Statement text of `GetTagOfArticle`. -/
def getTagOfArticleQuery : String :=
  "\n\t\tSELECT tag.* FROM article_tag JOIN tag ON article_tag.tag_id = tag.id WHERE article_tag.article_id = ?;\n\t"

/-! ## The storage engine on the INSERT statements

`AddTags` and `AttachTagsToArticle` splice values into the statement text and
hand the text to `Exec`, so the engine has to read the text back.  `Exec` of
go-sqlite3 runs the statements of a text one after the other and stops at the
first one that fails; what the statements before it did stays.  The reader
below covers a fragment of SQL: the statements
`INSERT OR IGNORE INTO tag (name, type) VALUES (v,v),(v,v);` and
`INSERT OR IGNORE INTO article_tag (article_id, tag_id) VALUES (v,v),(v,v);`,
written without blanks as the builders write them, with string literals (a
doubled delimiter stands for one), decimal integers and, for the type of a tag,
the scalar subquery `(SELECT count(*) FROM tag)` as values.  Any other text is
reported as a syntax error.  Every text the builders make from names without a
string delimiter lies in the fragment.  A name with a delimiter in it can bring
any SQL into the text of `AddTags`; SQLite accepts more of it than the fragment
(blanks, comments, other expressions and statements), so the general statements
below are made for names without a delimiter, and a text made from a name with
one is only evaluated at inputs inside the fragment. -/

/-- Removes the expected leading text `p` from `cs`. -/
def dropLeading : List Char → List Char → Option (List Char)
  | [], cs => some cs
  | _ :: _, [] => none
  | p :: ps, c :: cs => if p = c then dropLeading ps cs else none

/-- Reads a string literal after its opening delimiter: the content and what
follows the closing delimiter. -/
def scanStringBody : List Char → Option (List Char × List Char)
  | [] => none
  | c :: rest =>
    if c = quote then
      match rest with
      | [] => some ([], [])
      | d :: rest2 =>
        if d = quote then
          match scanStringBody rest2 with
          | some (body, after) => some (quote :: body, after)
          | none => none
        else some ([], d :: rest2)
    else
      match scanStringBody rest with
      | some (body, after) => some (c :: body, after)
      | none => none

/-- Whether `c` is a decimal digit. -/
def isDigit (c : Char) : Bool := decide (48 ≤ c.toNat) && decide (c.toNat ≤ 57)

/-- Splits off the leading decimal digits. -/
def scanDigits : List Char → List Char × List Char
  | [] => ([], [])
  | c :: rest =>
    if isDigit c then ((scanDigits rest).1.cons c, (scanDigits rest).2) else ([], c :: rest)

/-- Value of a digit string. -/
def digitsValue (ds : List Char) : Nat := ds.foldl (fun acc c => 10 * acc + (c.toNat - 48)) 0

/-- Reads a decimal integer literal with an optional minus sign. -/
def scanInt (cs : List Char) : Option (Int × List Char) :=
  match cs with
  | [] => none
  | c :: rest =>
    if c = '-' then
      match scanDigits rest with
      | ([], _) => none
      | (d :: ds, after) => some (-(digitsValue (d :: ds) : Int), after)
    else
      match scanDigits (c :: rest) with
      | ([], _) => none
      | (d :: ds, after) => some ((digitsValue (d :: ds) : Int), after)

/-- Reads the value written for an integer column of `tag`: the scalar
subquery `(SELECT count(*) FROM tag)`, whose value is `count`, or an integer
literal. -/
def scanIntValue (count : Int) (cs : List Char) : Option (Int × List Char) :=
  match dropLeading "(SELECT count(*) FROM tag)".data cs with
  | some rest => some (count, rest)
  | none => scanInt cs

/-- Reads one row `(string,integer)` of the `VALUES` list of an insert into
`tag`; `count` is the number of rows of `tag` when the statement starts. -/
def parseTagRow (count : Int) (cs : List Char) : Option ((String × Int) × List Char) :=
  match cs with
  | c0 :: c1 :: rest =>
    if c0 = '(' ∧ c1 = quote then
      match scanStringBody rest with
      | some (name, c2 :: rest2) =>
        if c2 = ',' then
          match scanIntValue count rest2 with
          | some (ty, c3 :: rest3) => if c3 = ')' then some ((String.mk name, ty), rest3) else none
          | _ => none
        else none
      | _ => none
    else none
  | _ => none

/-- Reads one row `(integer,integer)` of the `VALUES` list of the association
insert. -/
def parseAssocRow (cs : List Char) : Option (ArticleTag × List Char) :=
  match cs with
  | c0 :: rest =>
    if c0 = '(' then
      match scanInt rest with
      | some (a, c1 :: rest1) =>
        if c1 = ',' then
          match scanInt rest1 with
          | some (t, c2 :: rest2) => if c2 = ')' then some (ArticleTag.mk a t, rest2) else none
          | _ => none
        else none
      | _ => none
    else none
  | _ => none

/-- Reads the rows of a `VALUES` list up to the `;` that closes the statement
(or the end of the text), one row per unit of `fuel`: the rows and the text
after the statement. -/
def parseRows {α : Type} (row : List Char → Option (α × List Char)) :
    Nat → List Char → Option (List α × List Char)
  | 0, _ => none
  | fuel + 1, cs =>
    match row cs with
    | none => none
    | some (r, rest) =>
      match rest with
      | [] => some ([r], [])
      | c :: rest2 =>
        if c = ';' then some ([r], rest2)
        else if c = ',' then
          match parseRows row fuel rest2 with
          | some (rs, tail) => some (r :: rs, tail)
          | none => none
        else none

/-- Reads one `INSERT OR IGNORE ... VALUES ...;` statement whose head is `head`
at the start of the text: its rows and the text after it. -/
def parseInsert {α : Type} (head : String) (row : List Char → Option (α × List Char))
    (cs : List Char) : Option (List α × List Char) :=
  match dropLeading head.data cs with
  | none => none
  | some body => parseRows row body.length body

/-- Largest key among the rows of `tag`, and 0 for none. -/
def maxTagRowid (tags : List Tag) : Int := tags.foldl (fun m t => max m t.ID) 0

/-- One row of `INSERT OR IGNORE INTO tag (name, type)`.  `AUTOINCREMENT` draws
the next key (one more than the largest key of the table and than the
`sqlite_sequence` entry) before the uniqueness check; the row is skipped when a
row with the same `(name, type)` exists. -/
def Store.insertOrIgnoreTag (s : Store) (row : String × Int) : Store :=
  let rowid := max (maxTagRowid s.tag) s.tagSeq + 1
  if row ∈ s.tag.map Tag.key then { s with tagSeq := rowid }
  else { s with tag := s.tag ++ [Tag.mk rowid row.1 row.2], tagSeq := rowid }

/-- One row of `INSERT OR IGNORE INTO article_tag (article_id, tag_id)`. -/
def Store.insertOrIgnoreAssoc (s : Store) (row : ArticleTag) : Store :=
  if row ∈ s.article_tag then s else { s with article_tag := s.article_tag ++ [row] }

/-- The engine on the statement at the start of the text: the store it leaves
and the text after it.  The values of all rows are computed on the store as it
is when the statement starts. -/
def Store.execStatement (s : Store) (cs : List Char) : Option (Store × List Char) :=
  match parseInsert "INSERT OR IGNORE INTO tag (name, type) VALUES "
      (parseTagRow s.tag.length) cs with
  | some (rows, rest) => some (rows.foldl Store.insertOrIgnoreTag s, rest)
  | none =>
    match parseInsert "INSERT OR IGNORE INTO article_tag (article_id, tag_id) VALUES "
        parseAssocRow cs with
    | some (rows, rest) => some (rows.foldl Store.insertOrIgnoreAssoc s, rest)
    | none => none

/-- The loop of `Exec` over the statements of a text, one statement per unit of
`fuel`: it ends without error when no text is left, and with the error of the
first statement that fails, on the store the statements before it left. -/
def Store.execFrom : Nat → Store → List Char → Store × Option Err
  | _, s, [] => (s, none)
  | 0, s, _ :: _ => (s, some (Err.storage "syntax error"))
  | fuel + 1, s, c :: cs =>
    match s.execStatement (c :: cs) with
    | none => (s, some (Err.storage "syntax error"))
    | some (s1, rest) => Store.execFrom fuel s1 rest

/-- The engine behind `db.Exec(query)`: the new store and the `error`.  A
statement takes at least one character, so the length of the text is fuel
enough. -/
def Store.Exec (s : Store) (query : String) : Store × Option Err :=
  Store.execFrom query.data.length s query.data

/-- The engine on the lookup of `mappingTagID`; `order` is the order in which
it hands the selected rows back. -/
def Store.queryTagsByPairs (s : Store) (order : List Tag → List Tag) (query : String)
    (args : List SqlValue) : Except Err (List Tag) :=
  if placeholderCount query ≠ args.length then
    Except.error (Err.storage "sql: wrong number of arguments")
  else
    Except.ok (order (s.tag.filter fun t =>
      decide ((SqlValue.text t.Name, SqlValue.integer t.Type_) ∈ pairUp args)))

/-- The engine on the statement of `GetTagOfArticle`; `order` is the order in
which it hands the selected rows back (the statement has no `ORDER BY`). -/
def Store.queryTagOfArticle (s : Store) (order : List Tag → List Tag) (query : String)
    (args : List SqlValue) : Except Err (List Tag) :=
  if placeholderCount query ≠ args.length then
    Except.error (Err.storage "sql: wrong number of arguments")
  else
    Except.ok (order ((s.joinArticleTagTag.filter fun rt =>
      decide (SqlValue.integer rt.1.article_id = args.headD SqlValue.null)).map fun rt => rt.2))

/-! ## The tag handlers -/

/-- Go `GetTagOfArticle`; `order` is the order in which the engine returns the
rows. -/
def GetTagOfArticle (s : Store) (order : List Tag → List Tag) (article_id : Int) :
    Except Err (List Tag) :=
  match s.queryTagOfArticle order getTagOfArticleQuery [SqlValue.integer article_id] with
  | Except.error e => Except.error (Err.panic e.message)
  | Except.ok tags => Except.ok tags

/-- Go `Query`: `sh.db.Exec(query)`, of which the `error` is returned. -/
def Query (s : Store) (query : String) : Store × Option Err :=
  s.Exec query

/-- Go `AddTags`: the store afterwards and the returned `error`. -/
def AddTags (s : Store) (tags : List Tag) : Store × Option Err :=
  Query s (addTagsQuery tags)

/-- The loop of `mappingTagID` over the returned rows:
`ptr := unmapped_tags[i]; Scan(&ptr.ID, &ptr.Name, &ptr.Type); tags[i] = ptr; i += 1`.
Indexing `unmapped_tags` past its length is a run-time panic. -/
def scanRows (tag_count : Nat) : List Tag → Nat → List Tag → Except Err (List Tag × Nat)
  | [], i, tags => Except.ok (tags, i)
  | row :: rows, i, tags =>
    if i < tag_count then scanRows tag_count rows (i + 1) (tags.set i row)
    else Except.error (Err.panic "index out of range")

/-- Go `mappingTagID`; `order` is the order in which the engine returns the
looked-up rows. -/
def mappingTagID (s : Store) (order : List Tag → List Tag) (tags : List Tag) :
    Except Err (List Tag) :=
  let mapped_tags := tags.filter fun v => decide (v.ID ≠ 0)
  let unmapped_tags := tags.filter fun v => decide (v.ID = 0)
  let tag_count := unmapped_tags.length
  if tag_count = 0 then Except.ok tags
  else
    let query := mappingTagIDQuery tag_count
    let args := fillPairArgs unmapped_tags 0 (makeArgs (tag_count * 2))
    match s.queryTagsByPairs order query args with
    | Except.error e => Except.error (Err.panic e.message)
    | Except.ok result =>
      match scanRows tag_count result 0 tags with
      | Except.error e => Except.error e
      | Except.ok (tags1, i) =>
        if i ≠ tag_count then Except.error (Err.panic "tag mapping fail")
        else Except.ok (assignFrom mapped_tags i tags1)

/-- Go `AttachTagsToArticle`: the store afterwards and the returned `error`
(or the panic of `mappingTagID`).  The `error` of `AddTags` is not looked at. -/
def AttachTagsToArticle (s : Store) (order : List Tag → List Tag) (article_id : Int)
    (tags : List Tag) : Store × Option Err :=
  let s1 := (AddTags s tags).1
  match mappingTagID s1 order tags with
  | Except.error e => (s1, some e)
  | Except.ok tags1 => Query s1 (attachTagsQuery article_id tags1)

/-- A sequence of `AttachTagsToArticle` calls for one article, each on the
store the previous one left; `none` as soon as a call fails (returns an error
or panics). -/
def attachAll (order : List Tag → List Tag) (article_id : Int) :
    Store → List (List Tag) → Option Store
  | s, [] => some s
  | s, tags :: calls =>
    match AttachTagsToArticle s order article_id tags with
    | (s1, none) => attachAll order article_id s1 calls
    | (_, some _) => none

/-! ## nullable_types.go, with the part of `encoding/json` and `unicode/utf8`
it relies on

`json.Marshal` and `json.Unmarshal` work on the bytes of a string, and
`json.Marshal` rewrites bytes that are not well-formed UTF-8; the string of a
`NullableString` is therefore the list of its bytes. -/

/-- Go `utf8.RuneError` (U+FFFD). -/
def runeError : Nat := 0xFFFD

/-- Go `utf8.AppendRune`: the UTF-8 encoding of a rune, the one of U+FFFD for a
surrogate or a value above U+10FFFF. -/
def encodeRune (r : Nat) : List Nat :=
  if r < 0x80 then [r]
  else if r < 0x800 then [0xC0 + r / 64, 0x80 + r % 64]
  else if (0xD800 ≤ r ∧ r ≤ 0xDFFF) ∨ 0x10FFFF < r then [0xEF, 0xBF, 0xBD]
  else if r < 0x10000 then [0xE0 + r / 4096, 0x80 + r / 64 % 64, 0x80 + r % 64]
  else [0xF0 + r / 262144, 0x80 + r / 4096 % 64, 0x80 + r / 64 % 64, 0x80 + r % 64]

/-- The bytes of a text: the UTF-8 encoding of its characters. -/
def utf8 (s : List Char) : List Nat := s.flatMap fun c => encodeRune c.toNat

/-- The bytes of a string literal of the source. -/
def bytesOf (s : String) : List Nat := utf8 s.data

/-- A UTF-8 continuation byte. -/
def isCont (b : Nat) : Bool := decide (0x80 ≤ b) && decide (b ≤ 0xBF)

/-- Go `utf8.DecodeRune`: the first rune of a byte sequence and its width;
`(RuneError, 1)` for a byte that starts no well-formed encoding (overlong
forms, surrogates and values above U+10FFFF are not well-formed). -/
def decodeRune : List Nat → Nat × Nat
  | [] => (runeError, 0)
  | b0 :: rest =>
    if b0 < 0x80 then (b0, 1)
    else if 0xC2 ≤ b0 ∧ b0 ≤ 0xDF then
      match rest with
      | b1 :: _ => if isCont b1 then (b0 % 32 * 64 + b1 % 64, 2) else (runeError, 1)
      | [] => (runeError, 1)
    else if 0xE0 ≤ b0 ∧ b0 ≤ 0xEF then
      match rest with
      | b1 :: b2 :: _ =>
        if (if b0 = 0xE0 then 0xA0 else 0x80) ≤ b1 ∧ b1 ≤ (if b0 = 0xED then 0x9F else 0xBF)
            ∧ isCont b2 = true then
          (b0 % 16 * 4096 + b1 % 64 * 64 + b2 % 64, 3)
        else (runeError, 1)
      | _ => (runeError, 1)
    else if 0xF0 ≤ b0 ∧ b0 ≤ 0xF4 then
      match rest with
      | b1 :: b2 :: b3 :: _ =>
        if (if b0 = 0xF0 then 0x90 else 0x80) ≤ b1 ∧ b1 ≤ (if b0 = 0xF4 then 0x8F else 0xBF)
            ∧ isCont b2 = true ∧ isCont b3 = true then
          (b0 % 8 * 262144 + b1 % 64 * 4096 + b2 % 64 * 64 + b3 % 64, 4)
        else (runeError, 1)
      | _ => (runeError, 1)
    else (runeError, 1)

/-- The digit of `"0123456789abcdef"` at index `n`. -/
def hexDigit (n : Nat) : Nat := if n < 10 then 48 + n else 87 + n

/-- Table `htmlSafeSet` of `encoding/json`: the ASCII bytes written as they
are (all from the blank on, except the double quote, the backslash and the
characters `<`, `>`, `&`). -/
def htmlSafe (b : Nat) : Bool :=
  decide (0x20 ≤ b) && decide (b < 0x80) && !(b = 34 || b = 92 || b = 60 || b = 62 || b = 38)

/-- The escape `encoding/json` writes for an ASCII byte that is not in
`htmlSafeSet` (releases before Go 1.22 write the backspace and the form feed as
`\u0008` and `\u000c`, which the decoder reads the same way). -/
def escapeByte (b : Nat) : List Nat :=
  if b = 92 ∨ b = 34 then [92, b]
  else if b = 8 then [92, 98]
  else if b = 12 then [92, 102]
  else if b = 10 then [92, 110]
  else if b = 13 then [92, 114]
  else if b = 9 then [92, 116]
  else [92, 117, 48, 48, hexDigit (b / 16), hexDigit (b % 16)]

/-- The loop of `appendString` of `encoding/json` (with `escapeHTML`), a byte
at a time; `skip` counts the bytes still to pass over because they belong to
the rune decoded last. -/
def escapeFrom : Nat → List Nat → List Nat
  | _, [] => []
  | skip + 1, _ :: rest => escapeFrom skip rest
  | 0, b :: rest =>
    if b < 0x80 then
      (if htmlSafe b then [b] else escapeByte b) ++ escapeFrom 0 rest
    else if (decodeRune (b :: rest)).1 = runeError ∧ (decodeRune (b :: rest)).2 = 1 then
      bytesOf "\\ufffd" ++ escapeFrom 0 rest
    else if (decodeRune (b :: rest)).1 = 0x2028 ∨ (decodeRune (b :: rest)).1 = 0x2029 then
      bytesOf "\\u202" ++ [hexDigit ((decodeRune (b :: rest)).1 % 16)]
        ++ escapeFrom ((decodeRune (b :: rest)).2 - 1) rest
    else
      (b :: rest).take (decodeRune (b :: rest)).2
        ++ escapeFrom ((decodeRune (b :: rest)).2 - 1) rest

/-- Go `json.Marshal` of a string: the escaped bytes between double quotes. -/
def jsonMarshalString (s : List Nat) : List Nat := 34 :: escapeFrom 0 s ++ [34]

/-- Value of a hexadecimal digit. -/
def hexValue (b : Nat) : Option Nat :=
  if 48 ≤ b ∧ b ≤ 57 then some (b - 48)
  else if 97 ≤ b ∧ b ≤ 102 then some (b - 87)
  else if 65 ≤ b ∧ b ≤ 70 then some (b - 55)
  else none

/-- Function `getu4` of `encoding/json` on the bytes after `\u`: the value of
four hexadecimal digits. -/
def getu4 : List Nat → Option Nat
  | a :: b :: c :: d :: _ =>
    match hexValue a, hexValue b, hexValue c, hexValue d with
    | some x, some y, some z, some w => some (x * 4096 + y * 256 + z * 16 + w)
    | _, _, _, _ => none
  | _ => none

/-- Go `utf16.IsSurrogate`. -/
def isSurrogate (r : Nat) : Bool := decide (0xD800 ≤ r) && decide (r < 0xE000)

/-- Go `utf16.DecodeRune`: the rune of a surrogate pair, U+FFFD for anything
else. -/
def utf16DecodeRune (r1 r2 : Nat) : Nat :=
  if 0xD800 ≤ r1 ∧ r1 < 0xDC00 ∧ 0xDC00 ≤ r2 ∧ r2 < 0xE000 then
    (r1 - 0xD800) * 1024 + (r2 - 0xDC00) + 0x10000
  else runeError

/-- A JSON string literal after its opening quote, as the scanner and
`unquote` of `encoding/json` read it: the decoded bytes and what follows the
closing quote; `none` for a literal the scanner rejects.  `skip` counts the
bytes still to pass over (the rest of an escape or of a rune). -/
def scanString : Nat → List Nat → Option (List Nat × List Nat)
  | _, [] => none
  | skip + 1, _ :: rest => scanString skip rest
  | 0, b :: rest =>
    if b = 34 then some ([], rest)
    else if b = 92 then
      match rest with
      | [] => none
      | e :: rest2 =>
        if e = 34 ∨ e = 92 ∨ e = 47 then (scanString 1 rest).map fun r => (e :: r.1, r.2)
        else if e = 98 then (scanString 1 rest).map fun r => (8 :: r.1, r.2)
        else if e = 102 then (scanString 1 rest).map fun r => (12 :: r.1, r.2)
        else if e = 110 then (scanString 1 rest).map fun r => (10 :: r.1, r.2)
        else if e = 114 then (scanString 1 rest).map fun r => (13 :: r.1, r.2)
        else if e = 116 then (scanString 1 rest).map fun r => (9 :: r.1, r.2)
        else if e = 117 then
          match getu4 rest2 with
          | none => none
          | some rr =>
            if isSurrogate rr then
              match rest2.drop 4 with
              | 92 :: 117 :: rest3 =>
                match getu4 rest3 with
                | some rr1 =>
                  if utf16DecodeRune rr rr1 ≠ runeError then
                    (scanString 11 rest).map fun r =>
                      (encodeRune (utf16DecodeRune rr rr1) ++ r.1, r.2)
                  else (scanString 5 rest).map fun r => (encodeRune runeError ++ r.1, r.2)
                | none => (scanString 5 rest).map fun r => (encodeRune runeError ++ r.1, r.2)
              | _ => (scanString 5 rest).map fun r => (encodeRune runeError ++ r.1, r.2)
            else (scanString 5 rest).map fun r => (encodeRune rr ++ r.1, r.2)
        else none
    else if b < 0x20 then none
    else if b < 0x80 then (scanString 0 rest).map fun r => (b :: r.1, r.2)
    else
      (scanString ((decodeRune (b :: rest)).2 - 1) rest).map fun r =>
        (encodeRune (decodeRune (b :: rest)).1 ++ r.1, r.2)

/-- What `json.Unmarshal` stores in an `interface{}`, as far as the type switch
of `UnmarshalJSON` tells the values apart. -/
inductive JsonKind where
  | null
  | bool
  | number
  | string (s : List Nat)
  | array
  | object
deriving DecidableEq, Repr

/-- JSON white space. -/
def isSpace (b : Nat) : Bool := b = 32 || b = 9 || b = 13 || b = 10

/-- Drops leading white space. -/
def skipSpace : List Nat → List Nat
  | [] => []
  | b :: rest => if isSpace b then skipSpace rest else b :: rest

/-- Whether `b` is the byte of a decimal digit. -/
def isDigitByte (b : Nat) : Bool := decide (48 ≤ b) && decide (b ≤ 57)

/-- Splits off leading decimal digits. -/
def spanDigits : List Nat → List Nat × List Nat
  | [] => ([], [])
  | b :: rest =>
    if isDigitByte b then ((spanDigits rest).1.cons b, (spanDigits rest).2) else ([], b :: rest)

/-- A JSON number literal `-?(0|[1-9][0-9]*)(.[0-9]+)?([eE][+-]?[0-9]+)?`: its
bytes and what follows, `none` when the bytes do not start a number. -/
def scanNumber (cs : List Nat) : Option (List Nat × List Nat) :=
  let sign := if cs.head? = some 45 then [45] else []
  let intPart : Option (List Nat × List Nat) :=
    match cs.drop sign.length with
    | [] => none
    | d :: r =>
      if d = 48 then some ([48], r)
      else if isDigitByte d then some (d :: (spanDigits r).1, (spanDigits r).2)
      else none
  match intPart with
  | none => none
  | some (intText, afterInt) =>
    let frac : Option (List Nat × List Nat) :=
      match afterInt with
      | [] => some ([], [])
      | p :: r =>
        if p = 46 then
          if (spanDigits r).1 = [] then none else some (46 :: (spanDigits r).1, (spanDigits r).2)
        else some ([], p :: r)
    match frac with
    | none => none
    | some (fracText, afterFrac) =>
      match afterFrac with
      | [] => some (sign ++ intText ++ fracText, [])
      | e :: r =>
        if e = 101 ∨ e = 69 then
          let signE := if r.head? = some 43 ∨ r.head? = some 45 then r.take 1 else []
          if (spanDigits (r.drop signE.length)).1 = [] then none
          else some (sign ++ intText ++ fracText ++ e :: signE
            ++ (spanDigits (r.drop signE.length)).1, (spanDigits (r.drop signE.length)).2)
        else some (sign ++ intText ++ fracText, e :: r)

/-- Removes the expected leading bytes `p`. -/
def dropBytes : List Nat → List Nat → Option (List Nat)
  | [], cs => some cs
  | _ :: _, [] => none
  | p :: ps, c :: cs => if p = c then dropBytes ps cs else none

/-- Nesting limit `maxNestingDepth` of the scanner of `encoding/json`. -/
def maxNestingDepth : Nat := 10000

mutual
/-- A JSON value: its kind, the number literals met in it and what follows.
`fuel` bounds the number of values read, `depth` is the number of open arrays
and objects. -/
def parseValue : Nat → Nat → List Nat → Option (JsonKind × List (List Nat) × List Nat)
  | 0, _, _ => none
  | _ + 1, _, [] => none
  | fuel + 1, depth, b :: rest =>
    if b = 34 then (scanString 0 rest).map fun r => (JsonKind.string r.1, [], r.2)
    else if b = 123 then
      if maxNestingDepth ≤ depth then none
      else
        match skipSpace rest with
        | [] => none
        | c :: r =>
          if c = 125 then some (JsonKind.object, [], r)
          else (parseMembers fuel (depth + 1) (c :: r)).map fun x => (JsonKind.object, x.1, x.2)
    else if b = 91 then
      if maxNestingDepth ≤ depth then none
      else
        match skipSpace rest with
        | [] => none
        | c :: r =>
          if c = 93 then some (JsonKind.array, [], r)
          else (parseElements fuel (depth + 1) (c :: r)).map fun x => (JsonKind.array, x.1, x.2)
    else if b = 110 then (dropBytes (bytesOf "ull") rest).map fun r => (JsonKind.null, [], r)
    else if b = 116 then (dropBytes (bytesOf "rue") rest).map fun r => (JsonKind.bool, [], r)
    else if b = 102 then (dropBytes (bytesOf "alse") rest).map fun r => (JsonKind.bool, [], r)
    else if b = 45 ∨ isDigitByte b = true then
      (scanNumber (b :: rest)).map fun r => (JsonKind.number, [r.1], r.2)
    else none
/-- The elements of an array after `[`, up to the closing `]`. -/
def parseElements : Nat → Nat → List Nat → Option (List (List Nat) × List Nat)
  | 0, _, _ => none
  | fuel + 1, depth, cs =>
    match parseValue fuel depth cs with
    | none => none
    | some (_, nums, rest) =>
      match skipSpace rest with
      | [] => none
      | c :: r =>
        if c = 44 then (parseElements fuel depth (skipSpace r)).map fun x => (nums ++ x.1, x.2)
        else if c = 93 then some (nums, r)
        else none
/-- The members of an object after `{`, up to the closing `}`. -/
def parseMembers : Nat → Nat → List Nat → Option (List (List Nat) × List Nat)
  | 0, _, _ => none
  | _ + 1, _, [] => none
  | fuel + 1, depth, q :: cs =>
    if q = 34 then
      match scanString 0 cs with
      | none => none
      | some (_, afterKey) =>
        match skipSpace afterKey with
        | [] => none
        | colon :: r =>
          if colon = 58 then
            match parseValue fuel depth (skipSpace r) with
            | none => none
            | some (_, nums, rest) =>
              match skipSpace rest with
              | [] => none
              | c :: r2 =>
                if c = 44 then
                  (parseMembers fuel depth (skipSpace r2)).map fun x => (nums ++ x.1, x.2)
                else if c = 125 then some (nums, r2)
                else none
          else none
    else none
end

/-- The two steps of `encoding/json` this development does not spell out:
whether `strconv.ParseFloat` accepts a number literal as a `float64`, and
`json.Unmarshal(data, &ns.NullString)` for `data` holding an object. -/
structure JsonLib where
  parseFloat : List Nat → Bool
  unmarshalNullString : List Nat → NullString → NullString × Option Err

/-- Go `json.Unmarshal(data, &v)` for `v` of type `interface{}`: a syntax error
for bytes that are not one JSON value between optional white space, an error
for a number that is no `float64`, otherwise the value. -/
def jsonUnmarshal (lib : JsonLib) (data : List Nat) : Except Err JsonKind :=
  match parseValue (2 * data.length + 2) 0 (skipSpace data) with
  | none => Except.error (Err.json "invalid JSON")
  | some (kind, nums, rest) =>
    if skipSpace rest ≠ [] then Except.error (Err.json "invalid character after top-level value")
    else if nums.all lib.parseFloat then Except.ok kind
    else Except.error (Err.json "json: cannot unmarshal number into Go value of type float64")

/-- Go `NullableString.MarshalJSON`. -/
def NullableString.MarshalJSON (ns : NullableString) : Except Err (List Nat) :=
  if !ns.NullString.Valid then Except.ok (bytesOf "null")
  else Except.ok (jsonMarshalString ns.NullString.String)

/-- Go `(*NullableString).UnmarshalJSON`: the value `ns` holds afterwards and
the returned `error`. -/
def NullableString.UnmarshalJSON (lib : JsonLib) (ns : NullableString) (data : List Nat) :
    NullableString × Option Err :=
  match jsonUnmarshal lib data with
  | Except.error err => (ns, some err)
  | Except.ok v =>
    match v with
    | JsonKind.string x => (⟨⟨x, true⟩⟩, none)
    | JsonKind.object =>
      (⟨⟨(lib.unmarshalNullString data ns.NullString).1.String,
          (lib.unmarshalNullString data ns.NullString).2.isNone⟩⟩,
        (lib.unmarshalNullString data ns.NullString).2)
    | JsonKind.null => (⟨⟨ns.NullString.String, false⟩⟩, none)
    | JsonKind.bool =>
      (⟨⟨ns.NullString.String, false⟩⟩,
        some (Err.json "json: cannot unmarshal bool into Go value of type null.String"))
    | JsonKind.number =>
      (⟨⟨ns.NullString.String, false⟩⟩,
        some (Err.json "json: cannot unmarshal float64 into Go value of type null.String"))
    | JsonKind.array =>
      (⟨⟨ns.NullString.String, false⟩⟩,
        some (Err.json "json: cannot unmarshal  into Go value of type null.String"))

/-- The zero value of `NullableString`. -/
def NullableString.zero : NullableString := ⟨⟨[], false⟩⟩

/-! ## Example stores -/

/-- An absent `NullableString`. -/
def absent : NullableString := ⟨⟨[], false⟩⟩

/-- The example scenario: tags `("go",0)` and `("rust",0)`; article 1 carries
both, article 2 carries `("go",0)` only. -/
def exampleStore : Store :=
  Store.mk [Article.mk 1 "https://a.example/1" "web" absent absent,
            Article.mk 2 "https://a.example/2" "web" absent absent]
    [Tag.mk 1 "go" 0, Tag.mk 2 "rust" 0]
    [ArticleTag.mk 1 1, ArticleTag.mk 1 2, ArticleTag.mk 2 1] 2

/-- A store in which the name `go` exists under the two types 0 and 1, and the
one article carries both of these tags (and no other). -/
def twoTypesStore : Store :=
  Store.mk [Article.mk 1 "https://a.example/1" "web" absent absent]
    [Tag.mk 1 "go" 0, Tag.mk 2 "go" 1]
    [ArticleTag.mk 1 1, ArticleTag.mk 1 2] 2

/-- A store with empty tables. -/
def emptyStore : Store := Store.mk [] [] [] 0

/-- The tag name `a''b` (an `a`, two string delimiters, a `b`). -/
def doubledQuoteName : String := String.mk ['a', quote, quote, 'b']

/-- The tag name `it's`. -/
def apostropheName : String := String.mk ['i', 't', quote, 's']

/-- The store `exampleStore` after attaching `go`, `zig` and then `zig`, `rust`
to article 3. -/
def attachedStore : Store :=
  Store.mk exampleStore.article
    [Tag.mk 1 "go" 0, Tag.mk 2 "rust" 0, Tag.mk 4 "zig" 0]
    [ArticleTag.mk 1 1, ArticleTag.mk 1 2, ArticleTag.mk 2 1, ArticleTag.mk 3 1,
      ArticleTag.mk 3 4, ArticleTag.mk 3 2] 6

/-- A `JsonLib` whose two steps always succeed and change nothing. -/
def permissiveJsonLib : JsonLib := JsonLib.mk (fun _ => true) (fun _ ns => (ns, none))

/-- The store `exampleStore` after `AddTags` of `go`, `zig` and `x`. -/
def addedStore : Store :=
  Store.mk exampleStore.article
    [Tag.mk 1 "go" 0, Tag.mk 2 "rust" 0, Tag.mk 4 "zig" 0, Tag.mk 5 "x" 0]
    exampleStore.article_tag 5

/-- The tag name `x',(SELECT count(*) FROM tag)),('y`, with which the text of
`AddTags` is
`INSERT OR IGNORE INTO tag (name, type) VALUES ('x',(SELECT count(*) FROM tag)),('y',0);`. -/
def countingName : String :=
  "x" ++ String.mk [quote] ++ ",(SELECT count(*) FROM tag)),(" ++ String.mk [quote] ++ "y"

/-- The tag name
`x',0);INSERT OR IGNORE INTO article_tag (article_id, tag_id) VALUES (3,2);INSERT OR IGNORE INTO tag (name, type) VALUES ('y`,
with which the text of `AddTags` holds three statements, the second one an
insert into `article_tag`. -/
def assocInsertName : String :=
  "x" ++ String.mk [quote]
    ++ ",0);INSERT OR IGNORE INTO article_tag (article_id, tag_id) VALUES (3,2);"
    ++ "INSERT OR IGNORE INTO tag (name, type) VALUES (" ++ String.mk [quote] ++ "y"

/-- The name `assocInsertName` with each string delimiter doubled. -/
def assocInsertNameDoubled : String :=
  "x" ++ String.mk [quote, quote]
    ++ ",0);INSERT OR IGNORE INTO article_tag (article_id, tag_id) VALUES (3,2);"
    ++ "INSERT OR IGNORE INTO tag (name, type) VALUES (" ++ String.mk [quote, quote] ++ "y"

/-- The store `exampleStore` with a third tag, named `assocInsertName`; no
article carries it. -/
def namedStore : Store :=
  Store.mk exampleStore.article
    [Tag.mk 1 "go" 0, Tag.mk 2 "rust" 0, Tag.mk 3 assocInsertName 0]
    exampleStore.article_tag 3

/-! ## Theorems -/
theorem placeholderCount_append (a b : String) :
    placeholderCount (a ++ b) = placeholderCount a + placeholderCount b := by
  simp [placeholderCount, String.data_append]

theorem placeholderCount_stringsRepeat (s : String) (n : Nat) :
    placeholderCount (stringsRepeat s n) = n * placeholderCount s := by
  induction n with
  | zero => simp [stringsRepeat, placeholderCount]
  | succ n ih => rw [stringsRepeat, placeholderCount_append, ih]; ring

set_option maxRecDepth 100000 in
theorem placeholderCount_getArticlesByTagsQuery (n : Nat) (hn : 0 < n) :
    placeholderCount (getArticlesByTagsQuery n) = 2 * n + 1 := by
  unfold getArticlesByTagsQuery
  rw [placeholderCount_append, placeholderCount_append, placeholderCount_stringsRepeat]
  have h1 : placeholderCount "\n\tSELECT article.* FROM\n\tarticle INNER JOIN\n\t(SELECT article_tag.article_id as id FROM article_tag INNER JOIN tag ON article_tag.tag_id = tag.id WHERE (tag.name, tag.type) IN (VALUES (?,?)" = 2 := by decide
  have h2 : placeholderCount ",(?,?)" = 2 := by decide
  have h3 : placeholderCount ") GROUP BY article_tag.article_id HAVING count(*) >= ?) subq\n\tON article.id = subq.id\n\t" = 1 := by decide
  rw [h1, h2, h3]; omega

theorem fillPairArgs_eq (vs : List Tag) : ∀ (i : Nat) (pre post : List SqlValue),
    pre.length = 2 * i →
    fillPairArgs vs i (pre ++ makeArgs (2 * vs.length) ++ post)
      = pre ++ vs.flatMap (fun v => [SqlValue.text v.Name, SqlValue.integer v.Type_]) ++ post := by
  induction vs with
  | nil => intro i pre post _; simp [fillPairArgs, makeArgs]
  | cons v vs ih =>
    intro i pre post hpre
    have h2 : makeArgs (2 * (v :: vs).length) = SqlValue.null :: SqlValue.null :: makeArgs (2 * vs.length) := by
      simp [makeArgs, Nat.mul_succ, List.replicate_succ]
    rw [h2, fillPairArgs]
    have e1 : ((pre ++ SqlValue.null :: SqlValue.null :: makeArgs (2 * vs.length) ++ post).set (2 * i) (SqlValue.text v.Name)).set (2 * i + 1) (SqlValue.integer v.Type_)
        = (pre ++ [SqlValue.text v.Name, SqlValue.integer v.Type_]) ++ makeArgs (2 * vs.length) ++ post := by
      simp [List.set_append, hpre]
    rw [e1, ih (i + 1) _ post (by simp [hpre]; ring)]
    simp

set_option maxRecDepth 100000 in
theorem placeholderCount_getArticlesByTagNameQuery (n : Nat) (hn : 0 < n) :
    placeholderCount (getArticlesByTagNameQuery n) = n + 1 := by
  unfold getArticlesByTagNameQuery
  rw [placeholderCount_append, placeholderCount_append, placeholderCount_stringsRepeat]
  have h1 : placeholderCount "\n\tSELECT article.* FROM\n\tarticle INNER JOIN\n\t(SELECT article_tag.article_id as id FROM article_tag INNER JOIN tag ON article_tag.tag_id = tag.id WHERE tag.name IN (?" = 1 := by decide
  have h2 : placeholderCount ",?" = 1 := by decide
  have h3 : placeholderCount ") GROUP BY article_tag.article_id HAVING count(*) >= ?) subq\n\tON article.id = subq.id\n\t" = 1 := by decide
  rw [h1, h2, h3]; omega

set_option maxRecDepth 100000 in
theorem placeholderCount_getArticlesByTagIDQuery (n : Nat) (hn : 0 < n) :
    placeholderCount (getArticlesByTagIDQuery n) = n + 1 := by
  unfold getArticlesByTagIDQuery
  rw [placeholderCount_append, placeholderCount_append, placeholderCount_stringsRepeat]
  have h1 : placeholderCount "\n\tSELECT article.* FROM\n\tarticle INNER JOIN\n\t(SELECT article_id as id FROM article_tag WHERE tag_id IN (?" = 1 := by decide
  have h2 : placeholderCount ",?" = 1 := by decide
  have h3 : placeholderCount ") GROUP BY article_id HAVING count(*) >= ?) subq\n\tON article.id = subq.id\n\t" = 1 := by decide
  rw [h1, h2, h3]; omega

/-- Storing `vs` from index `i` on replaces the `vs.length` slots that follow
the first `i` ones. -/
theorem assignFrom_eq {α : Type} (vs : List α) : ∀ (i : Nat) (pre old post : List α),
    pre.length = i → old.length = vs.length →
    assignFrom vs i (pre ++ old ++ post) = pre ++ vs ++ post := by
  induction vs with
  | nil =>
    intro i pre old post _ hold
    rw [List.length_nil, List.length_eq_zero] at hold
    simp [assignFrom, hold]
  | cons v vs ih =>
    intro i pre old post hpre hold
    obtain ⟨o, old', rfl⟩ : ∃ o old', old = o :: old' := by
      cases old with
      | nil => simp at hold
      | cons o old' => exact ⟨o, old', rfl⟩
    rw [assignFrom]
    have e1 : (pre ++ o :: old' ++ post).set i v = (pre ++ [v]) ++ old' ++ post := by
      simp [List.set_append, hpre]
    rw [e1, ih (i + 1) _ old' post (by simp [hpre]) (by simpa using hold)]
    simp

theorem length_flatMap_pair (tags : List Tag) :
    (tags.flatMap (fun v => [SqlValue.text v.Name, SqlValue.integer v.Type_])).length
      = tags.length * 2 := by
  induction tags with
  | nil => rfl
  | cons t ts ih =>
    rw [List.flatMap_cons, List.length_append, ih]
    simp only [List.length_cons, List.length_nil]
    omega

/-- The arguments `GetArticlesByTags` binds: the `(name, type)` pairs in input
order, then the number of tags. -/
theorem getArticlesByTagsArgs_eq (tags : List Tag) :
    getArticlesByTagsArgs tags
      = tags.flatMap (fun v => [SqlValue.text v.Name, SqlValue.integer v.Type_])
        ++ [SqlValue.integer tags.length] := by
  unfold getArticlesByTagsArgs
  have hm : makeArgs (tags.length * 2 + 1) = [] ++ makeArgs (2 * tags.length) ++ [SqlValue.null] := by
    simp [makeArgs, List.replicate_succ', Nat.mul_comm]
  rw [hm, fillPairArgs_eq tags 0 [] [SqlValue.null] (by simp)]
  rw [List.nil_append, List.set_append, length_flatMap_pair]
  simp

theorem getArticlesByTagNameArgs_eq (tags : List String) :
    getArticlesByTagNameArgs tags = tags.map SqlValue.text ++ [SqlValue.integer tags.length] := by
  unfold getArticlesByTagNameArgs
  have hm : makeArgs (tags.length + 1)
      = [] ++ makeArgs (tags.map SqlValue.text).length ++ [SqlValue.null] := by
    simp [makeArgs, List.replicate_succ']
  rw [hm, assignFrom_eq _ 0 [] _ [SqlValue.null] (by simp) (by simp [makeArgs])]
  simp [List.set_append]

theorem getArticlesByTagIDArgs_eq (tags : List Int) :
    getArticlesByTagIDArgs tags = tags.map SqlValue.integer ++ [SqlValue.integer tags.length] := by
  unfold getArticlesByTagIDArgs
  have hm : makeArgs (tags.length + 1)
      = [] ++ makeArgs (tags.map SqlValue.integer).length ++ [SqlValue.null] := by
    simp [makeArgs, List.replicate_succ']
  rw [hm, assignFrom_eq _ 0 [] _ [SqlValue.null] (by simp) (by simp [makeArgs])]
  simp [List.set_append]

theorem pairUp_flatMap (tags : List Tag) :
    pairUp (tags.flatMap (fun v => [SqlValue.text v.Name, SqlValue.integer v.Type_]))
      = tags.map (fun v => (SqlValue.text v.Name, SqlValue.integer v.Type_)) := by
  induction tags with
  | nil => simp [pairUp]
  | cons t ts ih =>
    rw [List.flatMap_cons]
    show pairUp (SqlValue.text t.Name :: SqlValue.integer t.Type_ :: ts.flatMap _) = _
    rw [pairUp, ih, List.map_cons]

theorem mem_joinArticle (s : Store) (subq : List Int) (a : Article) :
    a ∈ s.joinArticle subq ↔ a ∈ s.article ∧ a.ID ∈ subq := by
  unfold Store.joinArticle
  simp only [List.mem_flatMap, List.mem_map, List.mem_filter, decide_eq_true_eq]
  constructor
  · rintro ⟨b, hb, i, ⟨hi, hbi⟩, rfl⟩
    exact ⟨hb, hbi ▸ hi⟩
  · rintro ⟨ha, hi⟩
    exact ⟨a, ha, a.ID, ⟨hi, rfl⟩, rfl⟩

theorem mem_groupHaving (ids : List Int) (k : Int) (x : Int) :
    x ∈ groupHaving ids (SqlValue.integer k) ↔ x ∈ ids ∧ k ≤ (ids.count x : Int) := by
  simp [groupHaving, List.mem_filter, List.mem_dedup]

/-- One direction of the counting argument needs no uniqueness in the table:
when every criterion of a duplicate-free non-empty list is carried by a row of
the group, the group has at least as many rows as there are criteria. -/
theorem groupHaving_of_forall {α β : Type} [DecidableEq β] (rows : List α) (gid : α → Int)
    (f : α → β) (K : List β) (x : Int) (hK : K.Nodup) (hpos : K ≠ [])
    (h : ∀ k ∈ K, ∃ r ∈ rows, gid r = x ∧ f r = k) :
    x ∈ groupHaving (rows.map gid) (SqlValue.integer K.length) := by
  rw [mem_groupHaving]
  have hcount : (rows.map gid).count x = ((rows.filter fun r => decide (gid r = x)).map f).length := by
    rw [List.count_eq_countP, List.countP_map, List.countP_eq_length_filter, List.length_map]
    congr 1
  have hKM : K ⊆ ((rows.filter fun r => decide (gid r = x)).map f) := by
    intro k hk
    obtain ⟨r, hr, hx, hf⟩ := h k hk
    simp only [List.mem_map, List.mem_filter, decide_eq_true_eq]
    exact ⟨r, ⟨hr, hx⟩, hf⟩
  have hle := (List.subperm_of_subset hK hKM).length_le
  refine ⟨?_, ?_⟩
  · obtain ⟨k, hk⟩ := List.exists_mem_of_ne_nil K hpos
    obtain ⟨r, hr, hx, _⟩ := h k hk
    exact List.mem_map.mpr ⟨r, hr, hx⟩
  · rw [hcount]; exact_mod_cast hle

/-- The counting argument behind `HAVING count(*) >= n`: when the selected rows
of one group carry pairwise different criteria, all taken from a duplicate-free
list of `n ≥ 1` criteria, the group reaches `n` rows exactly when every
criterion is carried by one of its rows. -/
theorem groupHaving_iff {α β : Type} [DecidableEq β] (rows : List α) (gid : α → Int)
    (f : α → β) (K : List β) (x : Int)
    (hK : K.Nodup) (hpos : K ≠ [])
    (hrows : rows.Nodup)
    (hinj : ∀ r ∈ rows, ∀ r' ∈ rows, gid r = x → gid r' = x → f r = f r' → r = r')
    (hsub : ∀ r ∈ rows, f r ∈ K) :
    x ∈ groupHaving (rows.map gid) (SqlValue.integer K.length)
      ↔ ∀ k ∈ K, ∃ r ∈ rows, gid r = x ∧ f r = k := by
  refine ⟨?_, groupHaving_of_forall rows gid f K x hK hpos⟩
  rw [mem_groupHaving]
  have hcount : (rows.map gid).count x = ((rows.filter fun r => decide (gid r = x)).map f).length := by
    rw [List.count_eq_countP, List.countP_map, List.countP_eq_length_filter, List.length_map]
    congr 1
  have hM : ((rows.filter fun r => decide (gid r = x)).map f).Nodup := by
    apply List.Nodup.map_on _ (hrows.filter _)
    intro r hr r' hr' hff
    simp only [List.mem_filter, decide_eq_true_eq] at hr hr'
    exact hinj r hr.1 r' hr'.1 hr.2 hr'.2 hff
  have hMK : ((rows.filter fun r => decide (gid r = x)).map f) ⊆ K := by
    intro k hk
    simp only [List.mem_map, List.mem_filter] at hk
    obtain ⟨r, ⟨hr, _⟩, rfl⟩ := hk
    exact hsub r hr
  rintro ⟨_, hle⟩ k hk
  have hle' : K.length ≤ ((rows.filter fun r => decide (gid r = x)).map f).length := by
    rw [← hcount]; exact_mod_cast hle
  have hperm := (List.subperm_of_subset hM hMK).perm_of_length_le hle'
  have := hperm.symm.subset hk
  simp only [List.mem_map, List.mem_filter, decide_eq_true_eq] at this
  obtain ⟨r, ⟨hr, hx⟩, hf⟩ := this
  exact ⟨r, hr, hx, hf⟩

theorem mem_joinArticleTagTag (s : Store) (r : ArticleTag) (t : Tag) :
    (r, t) ∈ s.joinArticleTagTag ↔ r ∈ s.article_tag ∧ t ∈ s.tag ∧ t.ID = r.tag_id := by
  unfold Store.joinArticleTagTag
  simp only [List.mem_flatMap, List.mem_map, List.mem_filter, decide_eq_true_eq, Prod.mk.injEq]
  constructor
  · rintro ⟨r', hr', t', ⟨ht', hid⟩, rfl, rfl⟩
    exact ⟨hr', ht', hid⟩
  · rintro ⟨hr, ht, hid⟩
    exact ⟨r, hr, t, ⟨ht, hid⟩, rfl, rfl⟩

theorem nodup_joinArticleTagTag (s : Store) (htag : s.tag.Nodup) (hassoc : s.AssocUnique) :
    s.joinArticleTagTag.Nodup := by
  unfold Store.joinArticleTagTag
  rw [List.nodup_flatMap]
  refine ⟨?_, ?_⟩
  · intro r _
    apply List.Nodup.map_on _ (htag.filter _)
    intro t _ t' _ h
    exact (Prod.mk.inj h).2
  · refine List.Pairwise.imp ?_ hassoc
    intro r r' hne
    show List.Disjoint _ _
    intro p hp hp'
    simp only [List.mem_map, List.mem_filter] at hp hp'
    obtain ⟨t, _, rfl⟩ := hp
    obtain ⟨t', _, h⟩ := hp'
    exact hne (Prod.mk.inj h).1.symm

theorem key_inj_of_unique (s : Store) (hkey : s.TagKeyUnique) (t t' : Tag)
    (ht : t ∈ s.tag) (ht' : t' ∈ s.tag) (h : t.key = t'.key) : t = t' :=
  List.inj_on_of_nodup_map hkey ht ht' h

theorem queryArticlesByTags_eq (s : Store) (tags : List Tag) (hne : tags ≠ []) :
    s.queryArticlesByTags (getArticlesByTagsQuery tags.length) (getArticlesByTagsArgs tags)
      = Except.ok (s.joinArticle (groupHaving
          ((s.joinArticleTagTag.filter fun rt =>
              decide ((SqlValue.text rt.2.Name, SqlValue.integer rt.2.Type_)
                ∈ tags.map fun v => (SqlValue.text v.Name, SqlValue.integer v.Type_))).map
            fun rt => rt.1.article_id)
          (SqlValue.integer tags.length))) := by
  have hpos : 0 < tags.length := List.length_pos.mpr hne
  unfold Store.queryArticlesByTags
  rw [placeholderCount_getArticlesByTagsQuery _ hpos, getArticlesByTagsArgs_eq]
  have hlen : (tags.flatMap (fun v => [SqlValue.text v.Name, SqlValue.integer v.Type_])
      ++ [SqlValue.integer tags.length]).length = 2 * tags.length + 1 := by
    rw [List.length_append, length_flatMap_pair]; simp; omega
  rw [if_neg (by rw [hlen]; simp)]
  have htake : (tags.flatMap (fun v => [SqlValue.text v.Name, SqlValue.integer v.Type_])
      ++ [SqlValue.integer tags.length]).take (2 * tags.length + 1 - 1)
      = tags.flatMap (fun v => [SqlValue.text v.Name, SqlValue.integer v.Type_]) := by
    apply List.take_left'
    rw [length_flatMap_pair]; omega
  simp only [hlen, htake, List.getLastD_concat, pairUp_flatMap]

theorem GetArticlesByTags_eq (s : Store) (tags : List Tag) (hne : tags ≠ []) :
    GetArticlesByTags s tags
      = Except.ok (s.joinArticle (groupHaving
          ((s.joinArticleTagTag.filter fun rt =>
              decide ((SqlValue.text rt.2.Name, SqlValue.integer rt.2.Type_)
                ∈ tags.map fun v => (SqlValue.text v.Name, SqlValue.integer v.Type_))).map
            fun rt => rt.1.article_id)
          (SqlValue.integer tags.length))) := by
  have hlen : tags.length ≠ 0 := fun h => hne (List.length_eq_zero.mp h)
  unfold GetArticlesByTags
  simp only [hlen, if_false, queryArticlesByTags_eq s tags hne]

/-- C1. On a store whose tag rows have pairwise different `(name, type)` and
whose association rows are pairwise different, and for a non-empty list of
criteria with pairwise different `(name, type)`, `GetArticlesByTags` returns
(without failing) exactly the articles associated with a tag matching every
criterion: an article is in the result if and only if it is a row of `article`
and, for each criterion, `article_tag` links it to a tag row of that name and
type. -/
theorem GetArticlesByTags_exact (s : Store) (tags : List Tag)
    (hkey : s.TagKeyUnique) (hassoc : s.AssocUnique)
    (hne : tags ≠ []) (hnd : (tags.map Tag.key).Nodup) :
    ∃ res, GetArticlesByTags s tags = Except.ok res ∧
      ∀ a : Article, a ∈ res ↔
        (a ∈ s.article ∧ ∀ c ∈ tags, ∃ t ∈ s.tag, t.Name = c.Name ∧ t.Type_ = c.Type_ ∧
          ArticleTag.mk a.ID t.ID ∈ s.article_tag) := by
  refine ⟨_, GetArticlesByTags_eq s tags hne, ?_⟩
  · intro a
    rw [mem_joinArticle]
    apply and_congr_right
    intro _
    have htag : s.tag.Nodup := List.Nodup.of_map _ hkey
    have hK : (tags.map Tag.key).length = tags.length := List.length_map _ _
    have hKne : tags.map Tag.key ≠ [] := by simpa using hne
    have hmain := groupHaving_iff
      (s.joinArticleTagTag.filter fun rt =>
        decide ((SqlValue.text rt.2.Name, SqlValue.integer rt.2.Type_)
          ∈ tags.map fun v => (SqlValue.text v.Name, SqlValue.integer v.Type_)))
      (fun rt => rt.1.article_id) (fun rt => rt.2.key) (tags.map Tag.key) a.ID hnd hKne
      ((nodup_joinArticleTagTag s htag hassoc).filter _)
      (by
        rintro ⟨r, t⟩ hr ⟨r', t'⟩ hr' hx hx' hf
        rw [List.mem_filter, mem_joinArticleTagTag] at hr hr'
        have htt : t = t' := key_inj_of_unique s hkey t t' hr.1.2.1 hr'.1.2.1 hf
        subst htt
        have hrr : r = r' := by
          cases r; cases r'
          simp only [ArticleTag.mk.injEq]
          exact ⟨hx.trans hx'.symm, hr.1.2.2.symm.trans hr'.1.2.2⟩
        rw [hrr])
      (by
        rintro ⟨r, t⟩ hr
        simp only [List.mem_filter, decide_eq_true_eq, List.mem_map, Prod.mk.injEq,
          SqlValue.text.injEq, SqlValue.integer.injEq] at hr
        obtain ⟨_, v, hv, hn, ht⟩ := hr
        exact List.mem_map.mpr ⟨v, hv, by simp [Tag.key, hn, ht]⟩)
    rw [hK] at hmain
    rw [hmain]
    constructor
    · intro h c hc
      obtain ⟨⟨r, t⟩, hr, hx, hf⟩ := h c.key (List.mem_map_of_mem _ hc)
      rw [List.mem_filter, mem_joinArticleTagTag] at hr
      have hf' := Prod.mk.inj hf
      refine ⟨t, hr.1.2.1, hf'.1, hf'.2, ?_⟩
      have : ArticleTag.mk a.ID t.ID = r := by
        cases r
        simp only [ArticleTag.mk.injEq]
        exact ⟨hx.symm, hr.1.2.2⟩
      rw [this]; exact hr.1.1
    · intro h k hk
      obtain ⟨c, hc, rfl⟩ := List.mem_map.mp hk
      obtain ⟨t, ht, hn, hty, hat⟩ := h c hc
      refine ⟨(ArticleTag.mk a.ID t.ID, t), ?_, rfl, by simp [Tag.key, hn, hty]⟩
      rw [List.mem_filter, mem_joinArticleTagTag]
      refine ⟨⟨hat, ht, rfl⟩, ?_⟩
      simp only [decide_eq_true_eq, List.mem_map, Prod.mk.injEq, SqlValue.text.injEq,
        SqlValue.integer.injEq]
      exact ⟨c, hc, hn.symm, hty.symm⟩

theorem queryArticlesByTagID_eq (s : Store) (tags : List Int) (hne : tags ≠ []) :
    s.queryArticlesByTagID (getArticlesByTagIDQuery tags.length) (getArticlesByTagIDArgs tags)
      = Except.ok (s.joinArticle (groupHaving
          ((s.article_tag.filter fun r =>
              decide (SqlValue.integer r.tag_id ∈ tags.map SqlValue.integer)).map
            fun r => r.article_id)
          (SqlValue.integer tags.length))) := by
  have hpos : 0 < tags.length := List.length_pos.mpr hne
  unfold Store.queryArticlesByTagID
  rw [placeholderCount_getArticlesByTagIDQuery _ hpos, getArticlesByTagIDArgs_eq]
  have hlen : (tags.map SqlValue.integer ++ [SqlValue.integer tags.length]).length
      = tags.length + 1 := by simp
  rw [if_neg (by rw [hlen]; simp)]
  have htake : (tags.map SqlValue.integer ++ [SqlValue.integer tags.length]).take
      (tags.length + 1 - 1) = tags.map SqlValue.integer := by
    apply List.take_left'
    simp
  simp only [hlen, htake, List.getLastD_concat]

theorem GetArticlesByTagID_eq (s : Store) (tags : List Int) (hne : tags ≠ []) :
    GetArticlesByTagID s tags
      = Except.ok (s.joinArticle (groupHaving
          ((s.article_tag.filter fun r =>
              decide (SqlValue.integer r.tag_id ∈ tags.map SqlValue.integer)).map
            fun r => r.article_id)
          (SqlValue.integer tags.length))) := by
  have hlen : tags.length ≠ 0 := fun h => hne (List.length_eq_zero.mp h)
  unfold GetArticlesByTagID
  simp only [hlen, if_false, queryArticlesByTagID_eq s tags hne]

/-- C3. On a store whose association rows are pairwise different, and for a
non-empty duplicate-free list of tag identifiers, `GetArticlesByTagID` returns
(without failing) exactly the articles that have an association row for every
identifier of the list. -/
theorem GetArticlesByTagID_exact (s : Store) (tags : List Int)
    (hassoc : s.AssocUnique) (hne : tags ≠ []) (hnd : tags.Nodup) :
    ∃ res, GetArticlesByTagID s tags = Except.ok res ∧
      ∀ a : Article, a ∈ res ↔
        (a ∈ s.article ∧ ∀ i ∈ tags, ArticleTag.mk a.ID i ∈ s.article_tag) := by
  refine ⟨_, GetArticlesByTagID_eq s tags hne, ?_⟩
  intro a
  rw [mem_joinArticle]
  apply and_congr_right
  intro _
  have hmain := groupHaving_iff
    (s.article_tag.filter fun r => decide (SqlValue.integer r.tag_id ∈ tags.map SqlValue.integer))
    (fun r => r.article_id) (fun r => r.tag_id) tags a.ID hnd hne
    (List.Nodup.filter _ hassoc)
    (by
      intro r _ r' _ hx hx' hf
      cases r; cases r'
      simp only [ArticleTag.mk.injEq]
      exact ⟨hx.trans hx'.symm, hf⟩)
    (by
      intro r hr
      simp only [List.mem_filter, decide_eq_true_eq, List.mem_map, SqlValue.integer.injEq] at hr
      obtain ⟨_, i, hi, rfl⟩ := hr
      exact hi)
  rw [hmain]
  constructor
  · intro h i hi
    obtain ⟨r, hr, hx, hf⟩ := h i hi
    rw [List.mem_filter] at hr
    have : ArticleTag.mk a.ID i = r := by
      cases r
      simp only [ArticleTag.mk.injEq]
      exact ⟨hx.symm, hf.symm⟩
    rw [this]; exact hr.1
  · intro h i hi
    refine ⟨ArticleTag.mk a.ID i, ?_, rfl, rfl⟩
    rw [List.mem_filter]
    refine ⟨h i hi, ?_⟩
    simp only [decide_eq_true_eq, List.mem_map, SqlValue.integer.injEq]
    exact ⟨i, hi, rfl⟩

/-- Witness of C3 on `exampleStore`, where article 1 has association rows for
tags 1 and 2 and article 2 for tag 1 only. -/
theorem GetArticlesByTagID_exact_witness :
    exampleStore.AssocUnique ∧ ([1, 2] : List Int) ≠ [] ∧ ([1, 2] : List Int).Nodup ∧
    ∃ res, GetArticlesByTagID exampleStore [1, 2] = Except.ok res ∧
      ∀ a : Article, a ∈ res ↔
        (a ∈ exampleStore.article ∧
          ∀ i ∈ ([1, 2] : List Int), ArticleTag.mk a.ID i ∈ exampleStore.article_tag) :=
  ⟨by decide, by decide, by decide,
    GetArticlesByTagID_exact exampleStore [1, 2] (by decide) (by decide) (by decide)⟩

/-- Witness of C1 on `exampleStore` with the criteria `("go",0)`, `("rust",0)`. -/
theorem GetArticlesByTags_exact_witness :
    exampleStore.TagKeyUnique ∧ exampleStore.AssocUnique ∧
    [Tag.mk 0 "go" 0, Tag.mk 0 "rust" 0] ≠ [] ∧
    ([Tag.mk 0 "go" 0, Tag.mk 0 "rust" 0].map Tag.key).Nodup ∧
    ∃ res, GetArticlesByTags exampleStore [Tag.mk 0 "go" 0, Tag.mk 0 "rust" 0] = Except.ok res ∧
      ∀ a : Article, a ∈ res ↔
        (a ∈ exampleStore.article ∧
          ∀ c ∈ [Tag.mk 0 "go" 0, Tag.mk 0 "rust" 0], ∃ t ∈ exampleStore.tag,
            t.Name = c.Name ∧ t.Type_ = c.Type_ ∧
              ArticleTag.mk a.ID t.ID ∈ exampleStore.article_tag) :=
  ⟨by decide, by decide, by decide, by decide,
    GetArticlesByTags_exact exampleStore [Tag.mk 0 "go" 0, Tag.mk 0 "rust" 0]
      (by decide) (by decide) (by decide) (by decide)⟩

theorem queryArticlesByTagName_eq (s : Store) (tags : List String) (hne : tags ≠ []) :
    s.queryArticlesByTagName (getArticlesByTagNameQuery tags.length)
        (getArticlesByTagNameArgs tags)
      = Except.ok (s.joinArticle (groupHaving
          ((s.joinArticleTagTag.filter fun rt =>
              decide (SqlValue.text rt.2.Name ∈ tags.map SqlValue.text)).map
            fun rt => rt.1.article_id)
          (SqlValue.integer tags.length))) := by
  have hpos : 0 < tags.length := List.length_pos.mpr hne
  unfold Store.queryArticlesByTagName
  rw [placeholderCount_getArticlesByTagNameQuery _ hpos, getArticlesByTagNameArgs_eq]
  have hlen : (tags.map SqlValue.text ++ [SqlValue.integer tags.length]).length
      = tags.length + 1 := by simp
  rw [if_neg (by rw [hlen]; simp)]
  have htake : (tags.map SqlValue.text ++ [SqlValue.integer tags.length]).take
      (tags.length + 1 - 1) = tags.map SqlValue.text := by
    apply List.take_left'
    simp
  simp only [hlen, htake, List.getLastD_concat]

theorem GetArticlesByTagName_eq (s : Store) (tags : List String) (hne : tags ≠ []) :
    GetArticlesByTagName s tags
      = Except.ok (s.joinArticle (groupHaving
          ((s.joinArticleTagTag.filter fun rt =>
              decide (SqlValue.text rt.2.Name ∈ tags.map SqlValue.text)).map
            fun rt => rt.1.article_id)
          (SqlValue.integer tags.length))) := by
  have hlen : tags.length ≠ 0 := fun h => hne (List.length_eq_zero.mp h)
  unfold GetArticlesByTagName
  simp only [hlen, if_false, queryArticlesByTagName_eq s tags hne]

/-- The half of the name query that holds on every store: an article that is
associated with a tag of each requested name is returned. -/
theorem GetArticlesByTagName_complete (s : Store) (tags : List String)
    (hne : tags ≠ []) (hnd : tags.Nodup) (a : Article) (ha : a ∈ s.article)
    (hall : ∀ n ∈ tags, ∃ t ∈ s.tag, t.Name = n ∧ ArticleTag.mk a.ID t.ID ∈ s.article_tag) :
    ∃ res, GetArticlesByTagName s tags = Except.ok res ∧ a ∈ res := by
  refine ⟨_, GetArticlesByTagName_eq s tags hne, ?_⟩
  rw [mem_joinArticle]
  refine ⟨ha, ?_⟩
  have key := groupHaving_of_forall (s.joinArticleTagTag.filter fun rt =>
      decide (SqlValue.text rt.2.Name ∈ tags.map SqlValue.text))
    (fun rt => rt.1.article_id) (fun rt => rt.2.Name) tags a.ID hnd hne
  apply key
  intro n hn
  obtain ⟨t, ht, hname, hat⟩ := hall n hn
  refine ⟨(ArticleTag.mk a.ID t.ID, t), ?_, rfl, hname⟩
  rw [List.mem_filter, mem_joinArticleTagTag]
  refine ⟨⟨hat, ht, rfl⟩, ?_⟩
  simp only [decide_eq_true_eq, List.mem_map, SqlValue.text.injEq]
  exact ⟨n, hn, hname.symm⟩

set_option maxRecDepth 100000 in
/-- C2, the code at the failing input.  `twoTypesStore` satisfies the schema
constraints, its article carries the tags `("go",0)` and `("go",1)` and no tag
named `rust` exists; `GetArticlesByTagName` asked for `go` and `rust` still
returns the article, because its two `go` rows reach the row count 2. -/
theorem GetArticlesByTagName_counts_rows :
    twoTypesStore.TagIdUnique ∧ twoTypesStore.TagKeyUnique ∧ twoTypesStore.AssocUnique ∧
    ["go", "rust"].Nodup ∧
    (¬ ∃ t ∈ twoTypesStore.tag, t.Name = "rust") ∧
    GetArticlesByTagName twoTypesStore ["go", "rust"]
      = Except.ok [Article.mk 1 "https://a.example/1" "web" absent absent] := by
  decide

/-- C10. For a non-empty criteria list of length `n`, each tag-intersection
query builder makes a statement with as many `?` as it binds arguments:
`GetArticlesByTags` has `2n+1` placeholders and binds the `(name, type)` pairs
in input order followed by `n`; `GetArticlesByTagName` and `GetArticlesByTagID`
have `n+1` placeholders and bind the values in input order followed by `n`. -/
theorem query_builders_placeholders_match (tags : List Tag) (names : List String)
    (ids : List Int) (htags : tags ≠ []) (hnames : names ≠ []) (hids : ids ≠ []) :
    (placeholderCount (getArticlesByTagsQuery tags.length) = 2 * tags.length + 1 ∧
      getArticlesByTagsArgs tags
        = tags.flatMap (fun v => [SqlValue.text v.Name, SqlValue.integer v.Type_])
          ++ [SqlValue.integer tags.length] ∧
      (getArticlesByTagsArgs tags).length
        = placeholderCount (getArticlesByTagsQuery tags.length)) ∧
    (placeholderCount (getArticlesByTagNameQuery names.length) = names.length + 1 ∧
      getArticlesByTagNameArgs names
        = names.map SqlValue.text ++ [SqlValue.integer names.length] ∧
      (getArticlesByTagNameArgs names).length
        = placeholderCount (getArticlesByTagNameQuery names.length)) ∧
    (placeholderCount (getArticlesByTagIDQuery ids.length) = ids.length + 1 ∧
      getArticlesByTagIDArgs ids
        = ids.map SqlValue.integer ++ [SqlValue.integer ids.length] ∧
      (getArticlesByTagIDArgs ids).length
        = placeholderCount (getArticlesByTagIDQuery ids.length)) := by
  have h1 := placeholderCount_getArticlesByTagsQuery _ (List.length_pos.mpr htags)
  have h2 := placeholderCount_getArticlesByTagNameQuery _ (List.length_pos.mpr hnames)
  have h3 := placeholderCount_getArticlesByTagIDQuery _ (List.length_pos.mpr hids)
  refine ⟨⟨h1, getArticlesByTagsArgs_eq tags, ?_⟩, ⟨h2, getArticlesByTagNameArgs_eq names, ?_⟩,
    ⟨h3, getArticlesByTagIDArgs_eq ids, ?_⟩⟩
  · rw [h1, getArticlesByTagsArgs_eq, List.length_append, length_flatMap_pair]
    simp; omega
  · rw [h2, getArticlesByTagNameArgs_eq]; simp
  · rw [h3, getArticlesByTagIDArgs_eq]; simp

/-- Witness of C10 with two criteria for each builder. -/
theorem query_builders_placeholders_match_witness :
    [Tag.mk 0 "go" 0, Tag.mk 0 "rust" 0] ≠ [] ∧ ["go", "rust"] ≠ [] ∧ ([1, 2] : List Int) ≠ [] ∧
    placeholderCount (getArticlesByTagsQuery 2) = 5 ∧
    getArticlesByTagsArgs [Tag.mk 0 "go" 0, Tag.mk 0 "rust" 0]
      = [SqlValue.text "go", SqlValue.integer 0, SqlValue.text "rust", SqlValue.integer 0,
          SqlValue.integer 2] ∧
    placeholderCount (getArticlesByTagNameQuery 2) = 3 ∧
    placeholderCount (getArticlesByTagIDQuery 2) = 3 :=
  have h := query_builders_placeholders_match [Tag.mk 0 "go" 0, Tag.mk 0 "rust" 0]
    ["go", "rust"] [1, 2] (by decide) (by decide) (by decide)
  ⟨by decide, by decide, by decide, h.1.1, h.1.2.1, h.2.1.1, h.2.2.1⟩

/-! ### Reading back the spliced statement texts -/

theorem isDigit_digitChar (d : Nat) (hd : d < 10) : isDigit (digitChar d) = true := by
  interval_cases d <;> decide

theorem digitChar_toNat (d : Nat) (hd : d < 10) : (digitChar d).toNat - 48 = d := by
  interval_cases d <;> decide

theorem digitChar_ne_minus (d : Nat) (hd : d < 10) : digitChar d ≠ '-' := by
  interval_cases d <;> decide

theorem digitsValue_append (l : List Char) (c : Char) :
    digitsValue (l ++ [c]) = 10 * digitsValue l + (c.toNat - 48) := by
  simp [digitsValue, List.foldl_append]

theorem natDigits_ne_nil (fuel n : Nat) : natDigits (fuel + 1) n ≠ [] := by
  rw [natDigits]
  split <;> simp

theorem natDigits_all_digit : ∀ (fuel n : Nat), ∀ c ∈ natDigits fuel n, isDigit c = true := by
  intro fuel
  induction fuel with
  | zero => intro n c hc; simp [natDigits] at hc
  | succ fuel ih =>
    intro n c hc
    rw [natDigits] at hc
    split at hc
    · rename_i hn
      rw [List.mem_singleton] at hc
      rw [hc]; exact isDigit_digitChar n hn
    · rw [List.mem_append, List.mem_singleton] at hc
      rcases hc with hc | hc
      · exact ih _ c hc
      · rw [hc]; exact isDigit_digitChar _ (Nat.mod_lt _ (by norm_num))

theorem digitsValue_natDigits : ∀ (fuel n : Nat), n < fuel → digitsValue (natDigits fuel n) = n := by
  intro fuel
  induction fuel with
  | zero => intro n hn; omega
  | succ fuel ih =>
    intro n hn
    rw [natDigits]
    split
    · rename_i h10
      have := digitsValue_append [] (digitChar n)
      simp only [List.nil_append] at this
      rw [this, digitChar_toNat n h10]
      simp [digitsValue]
    · rename_i h10
      rw [digitsValue_append, ih (n / 10) (by omega), digitChar_toNat _ (Nat.mod_lt _ (by norm_num))]
      omega

theorem scanDigits_append (ds : List Char) (c : Char) (rest : List Char)
    (hds : ∀ d ∈ ds, isDigit d = true) (hc : isDigit c = false) :
    scanDigits (ds ++ c :: rest) = (ds, c :: rest) := by
  induction ds with
  | nil => simp [scanDigits, hc]
  | cons d ds ih =>
    have hd := hds d (List.mem_cons_self _ _)
    have ih' := ih (fun x hx => hds x (List.mem_cons_of_mem _ hx))
    simp [scanDigits, hd, ih']

/-- Reading back an integer written by `Itoa`. -/
theorem scanInt_Itoa (i : Int) (c : Char) (rest : List Char) (hc : isDigit c = false) :
    scanInt ((Itoa i).data ++ c :: rest) = some (i, c :: rest) := by
  cases i with
  | ofNat n =>
    have hne := natDigits_ne_nil n n
    obtain ⟨d, ds, hd⟩ : ∃ d ds, natDigits (n + 1) n = d :: ds := by
      cases h : natDigits (n + 1) n with
      | nil => exact absurd h hne
      | cons d ds => exact ⟨d, ds, rfl⟩
    have hall := natDigits_all_digit (n + 1) n
    have hval := digitsValue_natDigits (n + 1) n (by omega)
    have hsc := scanDigits_append (natDigits (n + 1) n) c rest hall hc
    rw [hd] at hall hval hsc
    have hdm : d ≠ '-' := by
      intro h
      have := hall d (List.mem_cons_self _ _)
      rw [h] at this
      exact absurd this (by decide)
    simp only [Itoa, hd, List.cons_append, scanInt, hdm, if_false]
    rw [List.cons_append] at hsc
    rw [hsc]
    simp [hval]
  | negSucc n =>
    have hne := natDigits_ne_nil (n + 1) (n + 1)
    obtain ⟨d, ds, hd⟩ : ∃ d ds, natDigits (n + 2) (n + 1) = d :: ds := by
      cases h : natDigits (n + 2) (n + 1) with
      | nil => exact absurd h hne
      | cons d ds => exact ⟨d, ds, rfl⟩
    have hall := natDigits_all_digit (n + 2) (n + 1)
    have hval := digitsValue_natDigits (n + 2) (n + 1) (by omega)
    have hsc := scanDigits_append (natDigits (n + 2) (n + 1)) c rest hall hc
    rw [hd] at hall hval hsc
    simp only [Itoa, hd, List.cons_append, scanInt, if_true]
    rw [List.cons_append] at hsc
    rw [hsc]
    simp only [hval]
    rfl

/-- Reading back a string literal whose content has no delimiter in it. -/
theorem scanStringBody_plain (name : List Char) (c : Char) (rest : List Char)
    (hname : quote ∉ name) (hc : c ≠ quote) :
    scanStringBody (name ++ quote :: c :: rest) = some (name, c :: rest) := by
  induction name with
  | nil => simp [scanStringBody, hc]
  | cons a name ih =>
    have ha : a ≠ quote := fun h => hname (h ▸ List.mem_cons_self _ _)
    have ih' := ih (fun h => hname (List.mem_cons_of_mem _ h))
    rw [List.cons_append, scanStringBody.eq_def]
    simp only [if_neg ha, ih']

theorem dropLeading_append (p cs : List Char) : dropLeading p (p ++ cs) = some cs := by
  induction p with
  | nil => cases cs <;> rfl
  | cons a p ih => simp [dropLeading, ih]

/-- Reading back a `VALUES` list: when the row reader reads back what `render`
writes, the rows written one after the other, a comma after each, the last
comma replaced by `;`, are read back in order, and the text after the `;` is
left. -/
theorem parseRows_render {α β : Type} (row : List Char → Option (α × List Char))
    (render : β → List Char) (val : β → α)
    (hrow : ∀ b c rest, c = ',' ∨ c = ';' → row (render b ++ c :: rest) = some (val b, c :: rest))
    (tail : List Char) :
    ∀ (bs : List β) (fuel : Nat), bs ≠ [] → bs.length ≤ fuel →
      parseRows row fuel ((bs.flatMap fun b => render b ++ [',']).dropLast ++ ';' :: tail)
        = some (bs.map val, tail) := by
  intro bs
  induction bs with
  | nil => intro fuel h; exact absurd rfl h
  | cons b bs ih =>
    intro fuel _ hfuel
    obtain ⟨fuel, rfl⟩ : ∃ k, fuel = k + 1 := ⟨fuel - 1, by simp at hfuel; omega⟩
    cases bs with
    | nil =>
      have htext : (([b] : List β).flatMap fun b => render b ++ [',']).dropLast ++ ';' :: tail
          = render b ++ ';' :: tail := by
        simp [List.flatMap_cons, List.dropLast_append_of_ne_nil]
      rw [htext, parseRows, hrow b ';' tail (Or.inr rfl)]
      simp
    | cons b2 bs =>
      have hne : ((b2 :: bs).flatMap fun b => render b ++ [',']) ≠ [] := by
        simp [List.flatMap_cons]
      have htext : ((b :: b2 :: bs).flatMap fun b => render b ++ [',']).dropLast ++ ';' :: tail
          = render b ++ ',' ::
              (((b2 :: bs).flatMap fun b => render b ++ [',']).dropLast ++ ';' :: tail) := by
        rw [List.flatMap_cons, List.dropLast_append_of_ne_nil _ hne]
        simp
      have ih' := ih fuel (by simp) (by simp at hfuel ⊢; omega)
      rw [htext, parseRows, hrow b ',' _ (Or.inl rfl)]
      have hc : (',' : Char) ≠ ';' := by decide
      simp only [if_neg hc, if_true, ih']
      rfl

theorem length_le_flatMap_render {β : Type} (render : β → List Char) (bs : List β) :
    bs.length ≤ (bs.flatMap fun b => render b ++ [',']).length := by
  induction bs with
  | nil => simp
  | cons b bs ih =>
    rw [List.flatMap_cons, List.length_append, List.length_append, List.length_cons]
    simp only [List.length_singleton]
    omega

/-- Reading back a whole spliced statement at the start of a text. -/
theorem parseInsert_render {α β : Type} (head : String)
    (row : List Char → Option (α × List Char)) (render : β → List Char) (val : β → α)
    (hrow : ∀ b c rest, c = ',' ∨ c = ';' → row (render b ++ c :: rest) = some (val b, c :: rest))
    (bs : List β) (hbs : bs ≠ []) (tail : List Char) :
    parseInsert head row
        (head.data ++ ((bs.flatMap fun b => render b ++ [',']).dropLast ++ ';' :: tail))
      = some (bs.map val, tail) := by
  unfold parseInsert
  rw [dropLeading_append]
  apply parseRows_render row render val hrow tail bs _ hbs
  have h1 := length_le_flatMap_render render bs
  have h2 : 0 < bs.length := List.length_pos.mpr hbs
  simp only [List.length_append, List.length_dropLast, List.length_cons]
  omega

theorem cutLast_append_data (query : String) (tail : String) :
    (cutLast query ++ tail).data = query.data.dropLast ++ tail.data := by
  simp [cutLast, String.data_append]

theorem foldl_append_data {β : Type} (render : β → List Char) (f : String → β → String)
    (hf : ∀ buf b, (f buf b).data = buf.data ++ (render b ++ [','])) (bs : List β) :
    ∀ init : String, (bs.foldl f init).data
      = init.data ++ bs.flatMap fun b => render b ++ [','] := by
  induction bs with
  | nil => intro init; simp
  | cons b bs ih =>
    intro init
    rw [List.foldl_cons, ih, hf, List.flatMap_cons]
    simp

theorem addTagsQuery_data (tags : List Tag) (hne : tags ≠ []) :
    (addTagsQuery tags).data
      = "INSERT OR IGNORE INTO tag (name, type) VALUES ".data
        ++ ((tags.flatMap fun v => tagRowText v ++ [',']).dropLast ++ [';']) := by
  unfold addTagsQuery
  rw [cutLast_append_data, foldl_append_data tagRowText _ _ tags]
  · rw [List.dropLast_append_of_ne_nil]
    · simp
    · cases tags with
      | nil => exact absurd rfl hne
      | cons t ts => simp [List.flatMap_cons]
  · intro buf b
    simp [String.data_append, tagRowText]

theorem attachTagsQuery_data (article_id : Int) (tags : List Tag) (hne : tags ≠ []) :
    (attachTagsQuery article_id tags).data
      = "INSERT OR IGNORE INTO article_tag (article_id, tag_id) VALUES ".data
        ++ ((tags.flatMap fun v => assocRowText article_id v ++ [',']).dropLast ++ [';']) := by
  unfold attachTagsQuery
  rw [cutLast_append_data, foldl_append_data (assocRowText article_id) _ _ tags]
  · rw [List.dropLast_append_of_ne_nil]
    · simp
    · cases tags with
      | nil => exact absurd rfl hne
      | cons t ts => simp [List.flatMap_cons]
  · intro buf b
    simp [String.data_append, assocRowText]

theorem isDigit_sep (c : Char) (h : c = ',' ∨ c = ';' ∨ c = ')') : isDigit c = false := by
  rcases h with h | h | h <;> (rw [h]; decide)

theorem parseAssocRow_render (article_id : Int) (v : Tag) (c : Char) (rest : List Char) :
    parseAssocRow (assocRowText article_id v ++ c :: rest)
      = some (ArticleTag.mk article_id v.ID, c :: rest) := by
  have h1 := scanInt_Itoa article_id ',' ((Itoa v.ID).data ++ ')' :: c :: rest) (by decide)
  have h2 := scanInt_Itoa v.ID ')' (c :: rest) (by decide)
  have e : assocRowText article_id v ++ c :: rest
      = '(' :: ((Itoa article_id).data ++ ',' :: ((Itoa v.ID).data ++ ')' :: c :: rest)) := by
    simp [assocRowText]
  rw [e, parseAssocRow]
  simp only [if_true, h1, h2]

theorem scanIntValue_Itoa (count i : Int) (c : Char) (rest : List Char)
    (hc : isDigit c = false) :
    scanIntValue count ((Itoa i).data ++ c :: rest) = some (i, c :: rest) := by
  have h := scanInt_Itoa i c rest hc
  have hd : dropLeading "(SELECT count(*) FROM tag)".data ((Itoa i).data ++ c :: rest) = none := by
    cases hI : (Itoa i).data ++ c :: rest with
    | nil => rfl
    | cons a as =>
      have ha : a ≠ '(' := by
        rintro rfl
        rw [hI] at h
        have hp : isDigit '(' = false := by decide
        simp [scanInt, scanDigits, hp] at h
      show (if '(' = a then _ else none) = none
      rw [if_neg (Ne.symm ha)]
  unfold scanIntValue
  rw [hd]
  exact h

theorem parseTagRow_render (count : Int) (v : Tag) (hv : quote ∉ v.Name.data) (c : Char)
    (rest : List Char) :
    parseTagRow count (tagRowText v ++ c :: rest) = some (v.key, c :: rest) := by
  have h1 := scanStringBody_plain v.Name.data ',' ((Itoa v.Type_).data ++ ')' :: c :: rest) hv
    (by decide)
  have h2 := scanIntValue_Itoa count v.Type_ ')' (c :: rest) (by decide)
  have e : tagRowText v ++ c :: rest
      = '(' :: quote :: (v.Name.data ++ quote :: ',' :: ((Itoa v.Type_).data ++ ')' :: c :: rest)) := by
    simp [tagRowText]
  rw [e, parseTagRow]
  simp only [true_and, if_true, h1, h2]
  rfl

theorem execFrom_single (s s1 : Store) (cs : List Char) (fuel : Nat) (hcs : cs ≠ [])
    (hfuel : 0 < fuel) (h : s.execStatement cs = some (s1, [])) :
    Store.execFrom fuel s cs = (s1, none) := by
  obtain ⟨fuel, rfl⟩ : ∃ k, fuel = k + 1 := ⟨fuel - 1, by omega⟩
  cases cs with
  | nil => exact absurd rfl hcs
  | cons c cs => simp only [Store.execFrom, h]

/-- The engine reads the association insert back as the pairs the handler
spliced in. -/
theorem Exec_attachTagsQuery (s : Store) (article_id : Int) (tags : List Tag)
    (hne : tags ≠ []) :
    s.Exec (attachTagsQuery article_id tags)
      = ((tags.map fun v => ArticleTag.mk article_id v.ID).foldl Store.insertOrIgnoreAssoc s,
          none) := by
  have hq := attachTagsQuery_data article_id tags hne
  unfold Store.Exec
  rw [hq]
  apply execFrom_single
  · simp
  · simp
  · have hno : ∀ rest, parseInsert "INSERT OR IGNORE INTO tag (name, type) VALUES "
        (parseTagRow s.tag.length)
        ("INSERT OR IGNORE INTO article_tag (article_id, tag_id) VALUES ".data ++ rest)
          = none := by
      intro rest
      rfl
    unfold Store.execStatement
    rw [hno]
    simp only
    rw [parseInsert_render _ parseAssocRow (assocRowText article_id)
      (fun v => ArticleTag.mk article_id v.ID)
      (fun b c rest _ => parseAssocRow_render article_id b c rest) tags hne []]

/-- The engine reads the insert of `AddTags` back as the `(name, type)` pairs
of the tags, when no name contains the string delimiter. -/
theorem Exec_addTagsQuery (s : Store) (tags : List Tag) (hne : tags ≠ [])
    (hplain : ∀ v ∈ tags, quote ∉ v.Name.data) :
    s.Exec (addTagsQuery tags)
      = ((tags.map Tag.key).foldl Store.insertOrIgnoreTag s, none) := by
  have hq := addTagsQuery_data tags hne
  have hsub : ∀ (l : List {v : Tag // quote ∉ v.Name.data}),
      (l.map Subtype.val).flatMap (fun v => tagRowText v ++ [','])
        = l.flatMap (fun v => tagRowText v.1 ++ [',']) := by
    intro l
    induction l with
    | nil => rfl
    | cons a l ih => simp [List.flatMap_cons, ih]
  have hatt : tags = (tags.attachWith _ hplain).map Subtype.val := by simp
  have hq' := hq
  rw [hatt, hsub] at hq'
  rw [← hatt] at hq'
  unfold Store.Exec
  rw [hq']
  apply execFrom_single
  · simp
  · simp
  · unfold Store.execStatement
    rw [parseInsert_render "INSERT OR IGNORE INTO tag (name, type) VALUES "
      (parseTagRow s.tag.length)
      (fun v : {v : Tag // quote ∉ v.Name.data} => tagRowText v.1) (fun v => v.1.key)
      (fun b c rest _ => parseTagRow_render _ b.1 b.2 c rest) (tags.attachWith _ hplain)
      (by simpa using hne) []]
    simp only
    congr 2
    conv_rhs => rw [hatt]
    rw [List.map_map]
    rfl

/-! ### The fuel of the statement reader

Every row and every statement takes at least one character, so the length of
the text is fuel enough for `parseRows` and for `Store.execFrom`: more fuel
gives the same result. -/

theorem dropLeading_length : ∀ (p cs rest : List Char), dropLeading p cs = some rest →
    rest.length + p.length = cs.length := by
  intro p
  induction p with
  | nil =>
    intro cs rest h
    cases cs <;> simp [dropLeading] at h <;> simp [← h]
  | cons a p ih =>
    intro cs rest h
    cases cs with
    | nil => simp [dropLeading] at h
    | cons c cs =>
      rw [dropLeading] at h
      split at h
      · have := ih cs rest h
        simp only [List.length_cons]
        omega
      · exact absurd h (by simp)

theorem scanStringBody_length : ∀ (n : Nat) (cs body after : List Char), cs.length ≤ n →
    scanStringBody cs = some (body, after) → after.length < cs.length := by
  intro n
  induction n with
  | zero =>
    intro cs body after hn h
    cases cs with
    | nil => simp [scanStringBody] at h
    | cons c cs => simp at hn
  | succ n ih =>
    intro cs body after hn h
    cases cs with
    | nil => simp [scanStringBody] at h
    | cons c rest =>
      rw [scanStringBody.eq_def] at h
      simp only at h
      split at h
      · cases rest with
        | nil =>
          simp only [Option.some.injEq, Prod.mk.injEq] at h
          rw [← h.2]
          simp
        | cons d rest2 =>
          simp only at h
          split at h
          · cases hrec : scanStringBody rest2 with
            | none => rw [hrec] at h; exact absurd h (by simp)
            | some p =>
              obtain ⟨b, a⟩ := p
              rw [hrec] at h
              simp only [Option.some.injEq, Prod.mk.injEq] at h
              have := ih rest2 b a (by simp only [List.length_cons] at hn; omega) hrec
              rw [← h.2]
              simp only [List.length_cons]
              omega
          · simp only [Option.some.injEq, Prod.mk.injEq] at h
            rw [← h.2]
            simp
      · cases hrec : scanStringBody rest with
        | none => rw [hrec] at h; exact absurd h (by simp)
        | some p =>
          obtain ⟨b, a⟩ := p
          rw [hrec] at h
          simp only [Option.some.injEq, Prod.mk.injEq] at h
          have := ih rest b a (by simp only [List.length_cons] at hn; omega) hrec
          rw [← h.2]
          simp only [List.length_cons]
          omega

theorem scanDigits_length : ∀ (cs : List Char),
    (scanDigits cs).1.length + (scanDigits cs).2.length = cs.length := by
  intro cs
  induction cs with
  | nil => rfl
  | cons c cs ih =>
    rw [scanDigits]
    split
    · simp only [List.length_cons]
      omega
    · simp

theorem scanInt_length (cs : List Char) (i : Int) (rest : List Char)
    (h : scanInt cs = some (i, rest)) : rest.length < cs.length := by
  unfold scanInt at h
  cases cs with
  | nil => simp at h
  | cons c cs =>
    simp only at h
    split at h
    · have hl := scanDigits_length cs
      cases hd : scanDigits cs with
      | mk ds after =>
        rw [hd] at h hl
        cases ds with
        | nil => simp at h
        | cons d ds =>
          simp only [Option.some.injEq, Prod.mk.injEq] at h
          rw [← h.2]
          simp only [List.length_cons] at hl ⊢
          omega
    · have hl := scanDigits_length (c :: cs)
      cases hd : scanDigits (c :: cs) with
      | mk ds after =>
        rw [hd] at h hl
        cases ds with
        | nil => simp at h
        | cons d ds =>
          simp only [Option.some.injEq, Prod.mk.injEq] at h
          rw [← h.2]
          simp only [List.length_cons] at hl ⊢
          omega

theorem scanIntValue_length (count : Int) (cs : List Char) (i : Int) (rest : List Char)
    (h : scanIntValue count cs = some (i, rest)) : rest.length < cs.length := by
  unfold scanIntValue at h
  cases hd : dropLeading "(SELECT count(*) FROM tag)".data cs with
  | some r =>
    rw [hd] at h
    simp only [Option.some.injEq, Prod.mk.injEq] at h
    have hl := dropLeading_length _ _ _ hd
    have hp : "(SELECT count(*) FROM tag)".data.length = 26 := by decide
    rw [← h.2]
    omega
  | none =>
    rw [hd] at h
    exact scanInt_length cs i rest h

theorem parseTagRow_length (count : Int) (cs : List Char) (r : String × Int) (rest : List Char)
    (h : parseTagRow count cs = some (r, rest)) : rest.length < cs.length := by
  unfold parseTagRow at h
  split at h
  · rename_i c0 c1 rest0
    split at h
    · split at h
      · rename_i name c2 rest2 hs
        have h1 := scanStringBody_length rest0.length rest0 name (c2 :: rest2) (le_refl _) hs
        split at h
        · split at h
          · rename_i ty c3 rest3 hi
            have h2 := scanIntValue_length count rest2 ty (c3 :: rest3) hi
            split at h
            · simp only [Option.some.injEq, Prod.mk.injEq] at h
              rw [← h.2]
              simp only [List.length_cons] at h1 h2 ⊢
              omega
            · exact absurd h (by simp)
          · exact absurd h (by simp)
        · exact absurd h (by simp)
      · exact absurd h (by simp)
    · exact absurd h (by simp)
  · exact absurd h (by simp)

theorem parseAssocRow_length (cs : List Char) (r : ArticleTag) (rest : List Char)
    (h : parseAssocRow cs = some (r, rest)) : rest.length < cs.length := by
  unfold parseAssocRow at h
  split at h
  · rename_i c0 rest0
    split at h
    · split at h
      · rename_i a c1 rest1 hs
        have h1 := scanInt_length rest0 a (c1 :: rest1) hs
        split at h
        · split at h
          · rename_i t c2 rest2 hi
            have h2 := scanInt_length rest1 t (c2 :: rest2) hi
            split at h
            · simp only [Option.some.injEq, Prod.mk.injEq] at h
              rw [← h.2]
              simp only [List.length_cons] at h1 h2 ⊢
              omega
            · exact absurd h (by simp)
          · exact absurd h (by simp)
        · exact absurd h (by simp)
      · exact absurd h (by simp)
    · exact absurd h (by simp)
  · exact absurd h (by simp)

/-- With a row reader that takes at least one character, `parseRows` gives the
same result for every amount of fuel from the length of the text on. -/
theorem parseRows_fuel {α : Type} (row : List Char → Option (α × List Char))
    (hrow : ∀ cs r rest, row cs = some (r, rest) → rest.length < cs.length) :
    ∀ (fuel fuel2 : Nat) (cs : List Char), cs.length ≤ fuel → cs.length ≤ fuel2 →
      parseRows row fuel cs = parseRows row fuel2 cs := by
  have hnil : row [] = none := by
    cases h : row [] with
    | none => rfl
    | some p => exact absurd (hrow [] p.1 p.2 h) (by simp)
  intro fuel
  induction fuel with
  | zero =>
    intro fuel2 cs h1 _
    have hcs : cs = [] := List.length_eq_zero.mp (Nat.le_zero.mp h1)
    subst hcs
    cases fuel2 with
    | zero => rfl
    | succ k => simp [parseRows, hnil]
  | succ fuel ih =>
    intro fuel2 cs h1 h2
    cases fuel2 with
    | zero =>
      have hcs : cs = [] := List.length_eq_zero.mp (Nat.le_zero.mp h2)
      subst hcs
      simp [parseRows, hnil]
    | succ k =>
      rw [parseRows, parseRows]
      cases hr : row cs with
      | none => rfl
      | some p =>
        obtain ⟨r, rest⟩ := p
        have hl := hrow cs r rest hr
        cases rest with
        | nil => rfl
        | cons c rest2 =>
          simp only [List.length_cons] at hl
          simp only
          rw [ih k rest2 (by omega) (by omega)]

/-- The text that `parseRows` leaves is shorter than the text it was given. -/
theorem parseRows_length {α : Type} (row : List Char → Option (α × List Char))
    (hrow : ∀ cs r rest, row cs = some (r, rest) → rest.length < cs.length) :
    ∀ (fuel : Nat) (cs : List Char) (rs : List α) (tail : List Char),
      parseRows row fuel cs = some (rs, tail) → tail.length < cs.length := by
  intro fuel
  induction fuel with
  | zero => intro cs rs tail h; simp [parseRows] at h
  | succ fuel ih =>
    intro cs rs tail h
    rw [parseRows] at h
    cases hr : row cs with
    | none => rw [hr] at h; exact absurd h (by simp)
    | some p =>
      obtain ⟨r, rest⟩ := p
      have hl := hrow cs r rest hr
      rw [hr] at h
      cases rest with
      | nil =>
        simp only [Option.some.injEq, Prod.mk.injEq] at h
        rw [← h.2]
        exact hl
      | cons c rest2 =>
        simp only [List.length_cons] at hl
        simp only at h
        split at h
        · simp only [Option.some.injEq, Prod.mk.injEq] at h
          rw [← h.2]
          omega
        · split at h
          · cases hrec : parseRows row fuel rest2 with
            | none => rw [hrec] at h; exact absurd h (by simp)
            | some q =>
              obtain ⟨rs2, tail2⟩ := q
              rw [hrec] at h
              simp only [Option.some.injEq, Prod.mk.injEq] at h
              have := ih rest2 rs2 tail2 hrec
              rw [← h.2]
              omega
          · exact absurd h (by simp)

theorem parseInsert_length {α : Type} (head : String)
    (row : List Char → Option (α × List Char))
    (hrow : ∀ cs r rest, row cs = some (r, rest) → rest.length < cs.length)
    (cs : List Char) (rs : List α) (tail : List Char)
    (h : parseInsert head row cs = some (rs, tail)) : tail.length < cs.length := by
  unfold parseInsert at h
  cases hd : dropLeading head.data cs with
  | none => rw [hd] at h; exact absurd h (by simp)
  | some body =>
    rw [hd] at h
    have h1 := dropLeading_length _ _ _ hd
    have h2 := parseRows_length row hrow _ _ _ _ h
    omega

/-- A statement takes at least one character of the text. -/
theorem execStatement_length (s s1 : Store) (cs rest : List Char)
    (h : s.execStatement cs = some (s1, rest)) : rest.length < cs.length := by
  unfold Store.execStatement at h
  cases h1 : parseInsert "INSERT OR IGNORE INTO tag (name, type) VALUES "
      (parseTagRow s.tag.length) cs with
  | some p =>
    rw [h1] at h
    simp only [Option.some.injEq, Prod.mk.injEq] at h
    have := parseInsert_length _ _ (parseTagRow_length _) cs p.1 p.2 h1
    rw [← h.2]
    exact this
  | none =>
    rw [h1] at h
    simp only at h
    cases h2 : parseInsert "INSERT OR IGNORE INTO article_tag (article_id, tag_id) VALUES "
        parseAssocRow cs with
    | some p =>
      rw [h2] at h
      simp only [Option.some.injEq, Prod.mk.injEq] at h
      have := parseInsert_length _ _ parseAssocRow_length cs p.1 p.2 h2
      rw [← h.2]
      exact this
    | none => rw [h2] at h; exact absurd h (by simp)

/-- The loop of `Exec` gives the same result for every amount of fuel from the
length of the text on. -/
theorem execFrom_fuel : ∀ (fuel fuel2 : Nat) (s : Store) (cs : List Char),
    cs.length ≤ fuel → cs.length ≤ fuel2 →
      Store.execFrom fuel s cs = Store.execFrom fuel2 s cs := by
  intro fuel
  induction fuel with
  | zero =>
    intro fuel2 s cs h1 _
    have hcs : cs = [] := List.length_eq_zero.mp (Nat.le_zero.mp h1)
    subst hcs
    cases fuel2 <;> rfl
  | succ fuel ih =>
    intro fuel2 s cs h1 h2
    cases cs with
    | nil => cases fuel2 <;> rfl
    | cons c cs =>
      cases fuel2 with
      | zero => simp at h2
      | succ k =>
        rw [Store.execFrom, Store.execFrom]
        cases hst : s.execStatement (c :: cs) with
        | none => rfl
        | some p =>
          obtain ⟨s1, rest⟩ := p
          have hl := execStatement_length s s1 (c :: cs) rest hst
          simp only
          exact ih k s1 rest (by omega) (by omega)

/-- The engine `Exec` is the loop over the statements with any amount of fuel
from the length of the text on. -/
theorem Exec_fuel (s : Store) (query : String) (fuel : Nat) (h : query.data.length ≤ fuel) :
    Store.execFrom fuel s query.data = s.Exec query :=
  execFrom_fuel fuel query.data.length s query.data h (le_refl _)

/-! ### `mappingTagID` -/

set_option maxRecDepth 100000 in
theorem placeholderCount_mappingTagIDQuery (n : Nat) (hn : 0 < n) :
    placeholderCount (mappingTagIDQuery n) = n * 2 := by
  unfold mappingTagIDQuery
  rw [placeholderCount_append, placeholderCount_append, placeholderCount_stringsRepeat]
  have h1 : placeholderCount "\n\t\tSELECT * FROM tag WHERE (name, type) IN (VALUES (?,?) " = 2 := by
    decide
  have h2 : placeholderCount ",(?,?)" = 2 := by decide
  have h3 : placeholderCount ")\n\t" = 0 := by decide
  rw [h1, h2, h3]; omega

theorem scanRows_ok (n : Nat) : ∀ (rows : List Tag) (i : Nat) (tags : List Tag),
    i + rows.length ≤ n →
    scanRows n rows i tags = Except.ok (assignFrom rows i tags, i + rows.length) := by
  intro rows
  induction rows with
  | nil => intro i tags _; simp [scanRows, assignFrom]
  | cons r rows ih =>
    intro i tags h
    simp only [List.length_cons] at h
    rw [scanRows, if_pos (by omega), ih (i + 1) _ (by omega), assignFrom]
    simp only [List.length_cons]
    congr 2
    omega

theorem scanRows_overflow (n : Nat) : ∀ (rows : List Tag) (i : Nat) (tags : List Tag),
    n < i + rows.length → i ≤ n →
    scanRows n rows i tags = Except.error (Err.panic "index out of range") := by
  intro rows
  induction rows with
  | nil => intro i tags h h'; simp at h; omega
  | cons r rows ih =>
    intro i tags h h'
    simp only [List.length_cons] at h
    rw [scanRows]
    split
    · exact ih (i + 1) _ (by omega) (by omega)
    · rfl

theorem length_filter_partition (tags : List Tag) :
    (tags.filter fun v => decide (v.ID = 0)).length
      + (tags.filter fun v => decide (v.ID ≠ 0)).length = tags.length := by
  induction tags with
  | nil => rfl
  | cons t ts ih =>
    by_cases h : t.ID = 0
    · simp [List.filter_cons, h] at ih ⊢; omega
    · simp [List.filter_cons, h] at ih ⊢; omega

/-- The rows the lookup of `mappingTagID` selects: the stored tags whose
`(name, type)` is the one of an unresolved candidate. -/
theorem queryTagsByPairs_mapping (s : Store) (order : List Tag → List Tag) (U : List Tag)
    (hU : U ≠ []) :
    s.queryTagsByPairs order (mappingTagIDQuery U.length)
        (fillPairArgs U 0 (makeArgs (U.length * 2)))
      = Except.ok (order (s.tag.filter fun t =>
          decide ((SqlValue.text t.Name, SqlValue.integer t.Type_)
            ∈ U.map fun v => (SqlValue.text v.Name, SqlValue.integer v.Type_)))) := by
  have hpos : 0 < U.length := List.length_pos.mpr hU
  have hargs : fillPairArgs U 0 (makeArgs (U.length * 2))
      = U.flatMap (fun v => [SqlValue.text v.Name, SqlValue.integer v.Type_]) := by
    have := fillPairArgs_eq U 0 [] [] rfl
    simpa [Nat.mul_comm] using this
  unfold Store.queryTagsByPairs
  rw [placeholderCount_mappingTagIDQuery _ hpos, hargs, length_flatMap_pair, pairUp_flatMap]
  simp

/-- What `mappingTagID` computes.  With no unresolved candidate the input comes
back; otherwise the looked-up rows `R`, in the order of the engine, followed by
the resolved candidates, provided `R` has as many rows as there are unresolved
candidates, and a panic if it has not. -/
theorem mappingTagID_eq (s : Store) (order : List Tag → List Tag) (tags : List Tag) :
    mappingTagID s order tags =
      if (tags.filter fun v => decide (v.ID = 0)) = [] then Except.ok tags
      else if (order (s.tag.filter fun t =>
          decide ((SqlValue.text t.Name, SqlValue.integer t.Type_)
            ∈ (tags.filter fun v => decide (v.ID = 0)).map
                fun v => (SqlValue.text v.Name, SqlValue.integer v.Type_)))).length
          = (tags.filter fun v => decide (v.ID = 0)).length then
        Except.ok (order (s.tag.filter fun t =>
          decide ((SqlValue.text t.Name, SqlValue.integer t.Type_)
            ∈ (tags.filter fun v => decide (v.ID = 0)).map
                fun v => (SqlValue.text v.Name, SqlValue.integer v.Type_)))
          ++ tags.filter fun v => decide (v.ID ≠ 0))
      else if (tags.filter fun v => decide (v.ID = 0)).length
          < (order (s.tag.filter fun t =>
          decide ((SqlValue.text t.Name, SqlValue.integer t.Type_)
            ∈ (tags.filter fun v => decide (v.ID = 0)).map
                fun v => (SqlValue.text v.Name, SqlValue.integer v.Type_)))).length then
        Except.error (Err.panic "index out of range")
      else Except.error (Err.panic "tag mapping fail") := by
  unfold mappingTagID
  generalize hU : (tags.filter fun v => decide (v.ID = 0)) = U
  generalize hM : (tags.filter fun v => decide (v.ID ≠ 0)) = M
  have hpart : U.length + M.length = tags.length := by
    rw [← hU, ← hM]; exact length_filter_partition tags
  by_cases hnil : U = []
  · simp [hnil]
  · have hlen : U.length ≠ 0 := fun h => hnil (List.length_eq_zero.mp h)
    simp only [hlen, if_false, hnil, queryTagsByPairs_mapping s order U hnil]
    generalize order (s.tag.filter fun t =>
          decide ((SqlValue.text t.Name, SqlValue.integer t.Type_)
            ∈ U.map fun v => (SqlValue.text v.Name, SqlValue.integer v.Type_))) = R
    by_cases hR : R.length = U.length
    · rw [if_pos hR, scanRows_ok U.length R 0 tags (by omega)]
      simp only [Nat.zero_add, hR, ne_eq, not_true_eq_false, if_false]
      congr 1
      have h1 : assignFrom R 0 tags = R ++ tags.drop U.length := by
        have := assignFrom_eq R 0 [] (tags.take U.length) (tags.drop U.length) rfl
          (by rw [List.length_take]; omega)
        simpa using this
      rw [h1]
      have h2 := assignFrom_eq M U.length R (tags.drop U.length) [] hR
        (by rw [List.length_drop]; omega)
      simpa using h2
    · rw [if_neg hR]
      by_cases hlt : U.length < R.length
      · rw [if_pos hlt, scanRows_overflow U.length R 0 tags (by omega) (by omega)]
      · rw [if_neg hlt, scanRows_ok U.length R 0 tags (by omega)]
        simp only [Nat.zero_add, ne_eq, hR, not_false_eq_true, if_true]

theorem mem_pairs_iff (t : Tag) (U : List Tag) :
    (SqlValue.text t.Name, SqlValue.integer t.Type_)
        ∈ U.map (fun v => (SqlValue.text v.Name, SqlValue.integer v.Type_))
      ↔ t.key ∈ U.map Tag.key := by
  simp only [List.mem_map, Prod.mk.injEq, SqlValue.text.injEq, SqlValue.integer.injEq, Tag.key]

/-- The rows selected by the lookup of `mappingTagID`, on a store with unique
`(name, type)`: they carry pairwise different keys, all of them requested. -/
theorem lookup_keys (s : Store) (hkey : s.TagKeyUnique) (U : List Tag) :
    ((s.tag.filter fun t =>
        decide ((SqlValue.text t.Name, SqlValue.integer t.Type_)
          ∈ U.map fun v => (SqlValue.text v.Name, SqlValue.integer v.Type_))).map Tag.key).Nodup
    ∧ ((s.tag.filter fun t =>
        decide ((SqlValue.text t.Name, SqlValue.integer t.Type_)
          ∈ U.map fun v => (SqlValue.text v.Name, SqlValue.integer v.Type_))).map Tag.key)
        ⊆ U.map Tag.key := by
  refine ⟨List.Nodup.sublist (List.Sublist.map _ (List.filter_sublist _)) hkey, ?_⟩
  intro k hk
  obtain ⟨t, ht, rfl⟩ := List.mem_map.mp hk
  rw [List.mem_filter, decide_eq_true_eq, mem_pairs_iff] at ht
  exact ht.2

/-- C5. On a store with unique `(name, type)`, whatever order the engine returns
the looked-up rows in (any permutation), when `mappingTagID` does not fail its
output has the length of the input and the same `(name, type)` pairs with the
same multiplicities; every resolved candidate (`ID ≠ 0`) is in it unchanged;
and for every unresolved candidate it contains the stored tag row that has the
candidate's `(name, type)`, hence that row's identifier. -/
theorem mappingTagID_reassembles (s : Store) (order : List Tag → List Tag)
    (tags out : List Tag) (hkey : s.TagKeyUnique) (horder : ∀ l, (order l).Perm l)
    (h : mappingTagID s order tags = Except.ok out) :
    out.length = tags.length ∧
    (out.map Tag.key).Perm (tags.map Tag.key) ∧
    (∀ c ∈ tags, c.ID ≠ 0 → c ∈ out) ∧
    (∀ c ∈ tags, c.ID = 0 → ∃ t ∈ s.tag, t.key = c.key ∧ t ∈ out) := by
  rw [mappingTagID_eq] at h
  by_cases hU : (tags.filter fun v => decide (v.ID = 0)) = []
  · rw [if_pos hU] at h
    cases h
    refine ⟨rfl, List.Perm.refl _, fun c hc _ => hc, ?_⟩
    intro c hc h0
    have : c ∈ tags.filter fun v => decide (v.ID = 0) := by
      rw [List.mem_filter]; exact ⟨hc, by simpa using h0⟩
    rw [hU] at this
    exact absurd this (List.not_mem_nil _)
  · rw [if_neg hU] at h
    obtain ⟨hnd, hsub⟩ := lookup_keys s hkey (tags.filter fun v => decide (v.ID = 0))
    generalize hF : (s.tag.filter fun t =>
        decide ((SqlValue.text t.Name, SqlValue.integer t.Type_)
          ∈ (tags.filter fun v => decide (v.ID = 0)).map
              fun v => (SqlValue.text v.Name, SqlValue.integer v.Type_))) = F at h hnd hsub
    have hFs : ∀ t ∈ F, t ∈ s.tag := by
      intro t ht; rw [← hF] at ht; exact (List.mem_filter.mp ht).1
    have hperm := horder F
    split at h
    · rename_i hlen
      cases h
      have hlenF : (tags.filter fun v => decide (v.ID = 0)).length ≤ (F.map Tag.key).length := by
        rw [List.length_map, ← hperm.length_eq, hlen]
      have hkeys : (F.map Tag.key).Perm ((tags.filter fun v => decide (v.ID = 0)).map Tag.key) :=
        (List.subperm_of_subset hnd hsub).perm_of_length_le (by simpa using hlenF)
      have hpart := length_filter_partition tags
      refine ⟨?_, ?_, ?_, ?_⟩
      · rw [List.length_append, hlen]; exact hpart
      · rw [List.map_append]
        have h1 : ((order F).map Tag.key).Perm
            ((tags.filter fun v => decide (v.ID = 0)).map Tag.key) :=
          (hperm.map _).trans hkeys
        have h2 : ((tags.filter fun v => decide (v.ID = 0))
            ++ (tags.filter fun v => decide (v.ID ≠ 0))).Perm tags := by
          have := List.filter_append_perm (fun v : Tag => decide (v.ID = 0)) tags
          have e : (tags.filter fun v => decide (v.ID ≠ 0))
              = tags.filter (fun x => !(fun v : Tag => decide (v.ID = 0)) x) := by
            apply List.filter_congr
            intro x _
            simp
          rw [e]; exact this
        have h3 := h2.map Tag.key
        rw [List.map_append] at h3
        exact (List.Perm.append_right _ h1).trans h3
      · intro c hc h0
        apply List.mem_append_right
        rw [List.mem_filter]
        exact ⟨hc, by simpa using h0⟩
      · intro c hc h0
        have hcU : c.key ∈ (tags.filter fun v => decide (v.ID = 0)).map Tag.key :=
          List.mem_map_of_mem _ (List.mem_filter.mpr ⟨hc, by simpa using h0⟩)
        obtain ⟨t, ht, htk⟩ := List.mem_map.mp (hkeys.symm.subset hcU)
        exact ⟨t, hFs t ht, htk, List.mem_append_left _ (hperm.symm.subset ht)⟩
    · split at h <;> cases h

set_option maxRecDepth 100000 in
/-- Witness of C5: on `exampleStore`, with the engine returning the rows in
reverse table order, the candidates `go` (unresolved), `x` with identifier 7,
`rust` (unresolved). -/
theorem mappingTagID_reassembles_witness :
    exampleStore.TagKeyUnique ∧ (∀ l : List Tag, (List.reverse l).Perm l) ∧
    mappingTagID exampleStore List.reverse [Tag.mk 0 "go" 0, Tag.mk 7 "x" 0, Tag.mk 0 "rust" 0]
      = Except.ok [Tag.mk 2 "rust" 0, Tag.mk 1 "go" 0, Tag.mk 7 "x" 0] ∧
    ([Tag.mk 2 "rust" 0, Tag.mk 1 "go" 0, Tag.mk 7 "x" 0].length
        = [Tag.mk 0 "go" 0, Tag.mk 7 "x" 0, Tag.mk 0 "rust" 0].length ∧
      ([Tag.mk 2 "rust" 0, Tag.mk 1 "go" 0, Tag.mk 7 "x" 0].map Tag.key).Perm
        ([Tag.mk 0 "go" 0, Tag.mk 7 "x" 0, Tag.mk 0 "rust" 0].map Tag.key) ∧
      (∀ c ∈ [Tag.mk 0 "go" 0, Tag.mk 7 "x" 0, Tag.mk 0 "rust" 0], c.ID ≠ 0 →
        c ∈ [Tag.mk 2 "rust" 0, Tag.mk 1 "go" 0, Tag.mk 7 "x" 0]) ∧
      (∀ c ∈ [Tag.mk 0 "go" 0, Tag.mk 7 "x" 0, Tag.mk 0 "rust" 0], c.ID = 0 →
        ∃ t ∈ exampleStore.tag, t.key = c.key ∧
          t ∈ [Tag.mk 2 "rust" 0, Tag.mk 1 "go" 0, Tag.mk 7 "x" 0])) :=
  ⟨by decide, List.reverse_perm, by decide,
    mappingTagID_reassembles exampleStore List.reverse
      [Tag.mk 0 "go" 0, Tag.mk 7 "x" 0, Tag.mk 0 "rust" 0]
      [Tag.mk 2 "rust" 0, Tag.mk 1 "go" 0, Tag.mk 7 "x" 0]
      (by decide) List.reverse_perm (by decide)⟩

/-! ### The two `INSERT OR IGNORE` statements on the store -/

theorem le_foldl_max (tags : List Tag) : ∀ (m : Int),
    m ≤ tags.foldl (fun m t => max m t.ID) m ∧
    ∀ t ∈ tags, t.ID ≤ tags.foldl (fun m t => max m t.ID) m := by
  induction tags with
  | nil => intro m; simp
  | cons a tags ih =>
    intro m
    obtain ⟨h1, h2⟩ := ih (max m a.ID)
    refine ⟨le_trans (le_max_left _ _) h1, ?_⟩
    intro t ht
    rcases List.mem_cons.mp ht with rfl | ht
    · exact le_trans (le_max_right _ _) h1
    · exact h2 t ht

theorem le_maxTagRowid (tags : List Tag) (t : Tag) (ht : t ∈ tags) : t.ID ≤ maxTagRowid tags :=
  (le_foldl_max tags 0).2 t ht

theorem insertOrIgnoreTag_tag (s : Store) (row : String × Int) :
    (s.insertOrIgnoreTag row).tag =
      if row ∈ s.tag.map Tag.key then s.tag
      else s.tag ++ [Tag.mk (max (maxTagRowid s.tag) s.tagSeq + 1) row.1 row.2] := by
  unfold Store.insertOrIgnoreTag
  split <;> rfl

theorem insertOrIgnoreTag_other (s : Store) (row : String × Int) :
    (s.insertOrIgnoreTag row).article = s.article ∧
    (s.insertOrIgnoreTag row).article_tag = s.article_tag := by
  unfold Store.insertOrIgnoreTag
  split <;> exact ⟨rfl, rfl⟩

theorem insertOrIgnoreTag_keyUnique (s : Store) (row : String × Int) (h : s.TagKeyUnique) :
    (s.insertOrIgnoreTag row).TagKeyUnique := by
  unfold Store.TagKeyUnique at h ⊢
  rw [insertOrIgnoreTag_tag]
  split
  · exact h
  · rename_i hrow
    rw [List.map_append, List.nodup_append]
    refine ⟨h, by simp, ?_⟩
    intro k hk hk'
    simp only [List.map_cons, List.map_nil, List.mem_singleton, Tag.key] at hk'
    exact hrow (by rw [hk'] at hk; exact hk)

theorem insertOrIgnoreTag_idUnique (s : Store) (row : String × Int) (h : s.TagIdUnique) :
    (s.insertOrIgnoreTag row).TagIdUnique := by
  unfold Store.TagIdUnique at h ⊢
  rw [insertOrIgnoreTag_tag]
  split
  · exact h
  · rw [List.map_append, List.nodup_append]
    refine ⟨h, by simp, ?_⟩
    intro i hi hi'
    simp only [List.map_cons, List.map_nil, List.mem_singleton] at hi'
    obtain ⟨t, ht, rfl⟩ := List.mem_map.mp hi
    have := le_maxTagRowid s.tag t ht
    have h2 := le_max_left (maxTagRowid s.tag) s.tagSeq
    omega

theorem insertOrIgnoreTag_mem (s : Store) (row : String × Int) (t : Tag) :
    t ∈ (s.insertOrIgnoreTag row).tag → t ∈ s.tag ∨ t.key = row := by
  rw [insertOrIgnoreTag_tag]
  split
  · exact Or.inl
  · intro h
    rcases List.mem_append.mp h with h | h
    · exact Or.inl h
    · rw [List.mem_singleton] at h
      right; rw [h]; rfl

theorem insertOrIgnoreTag_sub (s : Store) (row : String × Int) (t : Tag) (ht : t ∈ s.tag) :
    t ∈ (s.insertOrIgnoreTag row).tag := by
  rw [insertOrIgnoreTag_tag]
  split
  · exact ht
  · exact List.mem_append_left _ ht

theorem insertOrIgnoreTag_has (s : Store) (row : String × Int) :
    row ∈ (s.insertOrIgnoreTag row).tag.map Tag.key := by
  rw [insertOrIgnoreTag_tag]
  split
  · assumption
  · rw [List.map_append]
    apply List.mem_append_right
    simp [Tag.key]

/-- What a multi-row `INSERT OR IGNORE INTO tag` does to the store: the other
tables stay, no tag row is lost, the uniqueness constraints are kept, every
listed `(name, type)` is stored afterwards and every row stored afterwards was
there before or carries a listed `(name, type)`; and when every listed pair is
stored already, table `tag` stays as it is. -/
theorem foldl_insertOrIgnoreTag (rows : List (String × Int)) : ∀ (s : Store),
    (rows.foldl Store.insertOrIgnoreTag s).article = s.article ∧
    (rows.foldl Store.insertOrIgnoreTag s).article_tag = s.article_tag ∧
    (∀ t ∈ s.tag, t ∈ (rows.foldl Store.insertOrIgnoreTag s).tag) ∧
    (s.TagKeyUnique → (rows.foldl Store.insertOrIgnoreTag s).TagKeyUnique) ∧
    (s.TagIdUnique → (rows.foldl Store.insertOrIgnoreTag s).TagIdUnique) ∧
    (∀ row ∈ rows, row ∈ (rows.foldl Store.insertOrIgnoreTag s).tag.map Tag.key) ∧
    (∀ t ∈ (rows.foldl Store.insertOrIgnoreTag s).tag, t ∈ s.tag ∨ t.key ∈ rows) ∧
    ((∀ row ∈ rows, row ∈ s.tag.map Tag.key) →
      (rows.foldl Store.insertOrIgnoreTag s).tag = s.tag) := by
  induction rows with
  | nil =>
    intro s
    exact ⟨rfl, rfl, fun _ h => h, id, id, fun _ h => absurd h (List.not_mem_nil _),
      fun _ h => Or.inl h, fun _ => rfl⟩
  | cons r rows ih =>
    intro s
    obtain ⟨h1, h2, h3, h4, h5, h6, h7, h8⟩ := ih (s.insertOrIgnoreTag r)
    rw [List.foldl_cons]
    refine ⟨h1.trans (insertOrIgnoreTag_other s r).1, h2.trans (insertOrIgnoreTag_other s r).2,
      fun t ht => h3 t (insertOrIgnoreTag_sub s r t ht),
      fun h => h4 (insertOrIgnoreTag_keyUnique s r h),
      fun h => h5 (insertOrIgnoreTag_idUnique s r h), ?_, ?_, ?_⟩
    · intro row hrow
      rcases List.mem_cons.mp hrow with rfl | hrow
      · obtain ⟨t, ht, htk⟩ := List.mem_map.mp (insertOrIgnoreTag_has s row)
        exact List.mem_map.mpr ⟨t, h3 t ht, htk⟩
      · exact h6 row hrow
    · intro t ht
      rcases h7 t ht with h | h
      · rcases insertOrIgnoreTag_mem s r t h with h | h
        · exact Or.inl h
        · exact Or.inr (h ▸ List.mem_cons_self _ _)
      · exact Or.inr (List.mem_cons_of_mem _ h)
    · intro hall
      have hr : (s.insertOrIgnoreTag r).tag = s.tag := by
        rw [insertOrIgnoreTag_tag, if_pos (hall r (List.mem_cons_self _ _))]
      rw [h8 (by
        intro row hrow
        rw [hr]
        exact hall row (List.mem_cons_of_mem _ hrow)), hr]

theorem insertOrIgnoreAssoc_eq (s : Store) (row : ArticleTag) :
    (s.insertOrIgnoreAssoc row).article = s.article ∧
    (s.insertOrIgnoreAssoc row).tag = s.tag ∧
    (s.insertOrIgnoreAssoc row).tagSeq = s.tagSeq ∧
    (s.insertOrIgnoreAssoc row).article_tag
      = if row ∈ s.article_tag then s.article_tag else s.article_tag ++ [row] := by
  unfold Store.insertOrIgnoreAssoc
  split <;> simp [*]

/-- What a multi-row `INSERT OR IGNORE INTO article_tag` does to the store. -/
theorem foldl_insertOrIgnoreAssoc (rows : List ArticleTag) : ∀ (s : Store),
    (rows.foldl Store.insertOrIgnoreAssoc s).article = s.article ∧
    (rows.foldl Store.insertOrIgnoreAssoc s).tag = s.tag ∧
    (s.AssocUnique → (rows.foldl Store.insertOrIgnoreAssoc s).AssocUnique) ∧
    (∀ r, r ∈ (rows.foldl Store.insertOrIgnoreAssoc s).article_tag
      ↔ r ∈ s.article_tag ∨ r ∈ rows) ∧
    ((∀ r ∈ rows, r ∈ s.article_tag) →
      (rows.foldl Store.insertOrIgnoreAssoc s).article_tag = s.article_tag) := by
  induction rows with
  | nil => intro s; simp
  | cons a rows ih =>
    intro s
    obtain ⟨h1, h2, h3, h4, h5⟩ := ih (s.insertOrIgnoreAssoc a)
    obtain ⟨e1, e2, _, e4⟩ := insertOrIgnoreAssoc_eq s a
    rw [List.foldl_cons]
    refine ⟨h1.trans e1, h2.trans e2, ?_, ?_, ?_⟩
    · intro hs
      apply h3
      unfold Store.AssocUnique at hs ⊢
      rw [e4]
      split
      · exact hs
      · rename_i hna
        rw [List.nodup_append]
        refine ⟨hs, by simp, ?_⟩
        intro r hr hr'
        rw [List.mem_singleton] at hr'
        exact hna (hr' ▸ hr)
    · intro r
      rw [h4, e4]
      split
      · rename_i ha
        constructor
        · rintro (h | h)
          · exact Or.inl h
          · exact Or.inr (List.mem_cons_of_mem _ h)
        · rintro (h | h)
          · exact Or.inl h
          · rcases List.mem_cons.mp h with rfl | h
            · exact Or.inl ha
            · exact Or.inr h
      · simp only [List.mem_append, List.mem_singleton, List.mem_cons]
        tauto
    · intro hall
      have ha : (s.insertOrIgnoreAssoc a).article_tag = s.article_tag := by
        rw [e4, if_pos (hall a (List.mem_cons_self _ _))]
      rw [h5 (by
        intro r hr
        rw [ha]
        exact hall r (List.mem_cons_of_mem _ hr)), ha]

/-! ### `AddTags` followed by `mappingTagID` -/

set_option maxRecDepth 100000 in
/-- C4, the code at two failing inputs.  (1) The candidate list `("go",0),
("go",0)`, both unresolved: `AddTags` succeeds (the second row is ignored), the
lookup returns one row for two unresolved candidates and `mappingTagID` panics
with `tag mapping fail`.  (2) The single unresolved candidate named `a''b`:
`AddTags` succeeds and stores the name `a'b`, the lookup of `a''b` returns no
row and `mappingTagID` panics. -/
theorem mappingTagID_fails_after_AddTags :
    ([Tag.mk 0 "go" 0, Tag.mk 0 "go" 0] ≠ [] ∧
      (AddTags emptyStore [Tag.mk 0 "go" 0, Tag.mk 0 "go" 0]).2 = none ∧
      (AddTags emptyStore [Tag.mk 0 "go" 0, Tag.mk 0 "go" 0]).1.queryTagsByPairs id
          (mappingTagIDQuery 2)
          (fillPairArgs [Tag.mk 0 "go" 0, Tag.mk 0 "go" 0] 0 (makeArgs (2 * 2)))
        = Except.ok [Tag.mk 1 "go" 0] ∧
      mappingTagID (AddTags emptyStore [Tag.mk 0 "go" 0, Tag.mk 0 "go" 0]).1 id
          [Tag.mk 0 "go" 0, Tag.mk 0 "go" 0]
        = Except.error (Err.panic "tag mapping fail")) ∧
    ([Tag.mk 0 doubledQuoteName 0] ≠ [] ∧
      (AddTags emptyStore [Tag.mk 0 doubledQuoteName 0]).2 = none ∧
      (AddTags emptyStore [Tag.mk 0 doubledQuoteName 0]).1.tag
        = [Tag.mk 1 (String.mk ['a', quote, 'b']) 0] ∧
      (AddTags emptyStore [Tag.mk 0 doubledQuoteName 0]).1.queryTagsByPairs id
          (mappingTagIDQuery 1)
          (fillPairArgs [Tag.mk 0 doubledQuoteName 0] 0 (makeArgs (1 * 2)))
        = Except.ok [] ∧
      mappingTagID (AddTags emptyStore [Tag.mk 0 doubledQuoteName 0]).1 id
          [Tag.mk 0 doubledQuoteName 0]
        = Except.error (Err.panic "tag mapping fail")) := by
  decide

/-- `AddTags` on a non-empty list of tags whose names have no string delimiter
in them: the statement is accepted and inserts, ignoring duplicates, the
`(name, type)` pairs of the tags. -/
theorem AddTags_plain (s : Store) (tags : List Tag) (hne : tags ≠ [])
    (hplain : ∀ v ∈ tags, quote ∉ v.Name.data) :
    AddTags s tags = ((tags.map Tag.key).foldl Store.insertOrIgnoreTag s, none) :=
  Exec_addTagsQuery s tags hne hplain

/-- When every unresolved candidate is stored and the unresolved candidates
have pairwise different `(name, type)`, the lookup selects as many rows as
there are unresolved candidates. -/
theorem lookup_length (s : Store) (hkey : s.TagKeyUnique) (U : List Tag)
    (hdist : (U.map Tag.key).Nodup) (hall : ∀ c ∈ U, c.key ∈ s.tag.map Tag.key) :
    (s.tag.filter fun t =>
        decide ((SqlValue.text t.Name, SqlValue.integer t.Type_)
          ∈ U.map fun v => (SqlValue.text v.Name, SqlValue.integer v.Type_))).length
      = U.length := by
  obtain ⟨hnd, hsub⟩ := lookup_keys s hkey U
  have h1 := (List.subperm_of_subset hnd hsub).length_le
  have hsub2 : U.map Tag.key ⊆ (s.tag.filter fun t =>
        decide ((SqlValue.text t.Name, SqlValue.integer t.Type_)
          ∈ U.map fun v => (SqlValue.text v.Name, SqlValue.integer v.Type_))).map Tag.key := by
    intro k hk
    obtain ⟨c, hc, rfl⟩ := List.mem_map.mp hk
    obtain ⟨t, ht, htk⟩ := List.mem_map.mp (hall c hc)
    refine List.mem_map.mpr ⟨t, ?_, htk⟩
    rw [List.mem_filter, decide_eq_true_eq, mem_pairs_iff, htk]
    exact ⟨ht, hk⟩
  have h2 := (List.subperm_of_subset hdist hsub2).length_le
  simp only [List.length_map] at h1 h2
  omega

/-- Where the row count of `mappingTagID` does match.  On a store with unique
`(name, type)`, for a non-empty candidate list in which no name contains the
string delimiter and the unresolved candidates have pairwise different
`(name, type)`: once `AddTags` has succeeded, leaving the store `s1`, the
batched lookup of `mappingTagID` returns exactly as many rows as there are
unresolved candidates, in whatever order, and `mappingTagID` does not fail. -/
theorem mappingTagID_after_AddTags (s s1 : Store) (order : List Tag → List Tag)
    (tags : List Tag) (hkey : s.TagKeyUnique) (horder : ∀ l, (order l).Perm l)
    (hne : tags ≠ []) (hplain : ∀ v ∈ tags, quote ∉ v.Name.data)
    (hdist : ((tags.filter fun v => decide (v.ID = 0)).map Tag.key).Nodup)
    (hadd : AddTags s tags = (s1, none)) :
    ((tags.filter fun v => decide (v.ID = 0)) ≠ [] →
      ∃ rows, s1.queryTagsByPairs order
          (mappingTagIDQuery (tags.filter fun v => decide (v.ID = 0)).length)
          (fillPairArgs (tags.filter fun v => decide (v.ID = 0)) 0
            (makeArgs ((tags.filter fun v => decide (v.ID = 0)).length * 2)))
        = Except.ok rows ∧
        rows.length = (tags.filter fun v => decide (v.ID = 0)).length) ∧
    ∃ out, mappingTagID s1 order tags = Except.ok out := by
  rw [AddTags_plain s tags hne hplain] at hadd
  have hs1 : s1 = (tags.map Tag.key).foldl Store.insertOrIgnoreTag s := (Prod.mk.inj hadd).1.symm
  subst hs1
  obtain ⟨_, _, _, hk1, _, hhas, _, _⟩ := foldl_insertOrIgnoreTag (tags.map Tag.key) s
  have hlen := lookup_length _ (hk1 hkey) (tags.filter fun v => decide (v.ID = 0)) hdist
    (fun c hc => hhas c.key (List.mem_map_of_mem _ (List.mem_filter.mp hc).1))
  refine ⟨?_, ?_⟩
  · intro hU
    refine ⟨_, queryTagsByPairs_mapping _ order _ hU, ?_⟩
    rw [(horder _).length_eq, hlen]
  · rw [mappingTagID_eq]
    by_cases hU : (tags.filter fun v => decide (v.ID = 0)) = []
    · exact ⟨_, if_pos hU⟩
    · rw [if_neg hU, if_pos (by rw [(horder _).length_eq, hlen])]
      exact ⟨_, rfl⟩

set_option maxRecDepth 100000 in
/-- The matching row count on `exampleStore` with the candidates `go`
(unresolved, stored already), `zig` (unresolved, new) and `x` with
identifier 7. -/
theorem mappingTagID_after_AddTags_witness :
    exampleStore.TagKeyUnique ∧ (∀ l : List Tag, (id l).Perm l) ∧
    [Tag.mk 0 "go" 0, Tag.mk 0 "zig" 0, Tag.mk 7 "x" 0] ≠ [] ∧
    (∀ v ∈ [Tag.mk 0 "go" 0, Tag.mk 0 "zig" 0, Tag.mk 7 "x" 0], quote ∉ v.Name.data) ∧
    (([Tag.mk 0 "go" 0, Tag.mk 0 "zig" 0, Tag.mk 7 "x" 0].filter
      fun v => decide (v.ID = 0)).map Tag.key).Nodup ∧
    AddTags exampleStore [Tag.mk 0 "go" 0, Tag.mk 0 "zig" 0, Tag.mk 7 "x" 0]
      = (addedStore, none) ∧
    ∃ out, mappingTagID addedStore id
      [Tag.mk 0 "go" 0, Tag.mk 0 "zig" 0, Tag.mk 7 "x" 0] = Except.ok out :=
  have h := mappingTagID_after_AddTags exampleStore addedStore id
    [Tag.mk 0 "go" 0, Tag.mk 0 "zig" 0, Tag.mk 7 "x" 0]
    (by decide) (fun l => List.Perm.refl l) (by decide) (by decide) (by decide) (by decide)
  ⟨by decide, fun l => List.Perm.refl l, by decide, by decide, by decide, by decide, h.2⟩

/-! ### `AttachTagsToArticle` -/

set_option maxRecDepth 100000 in
/-- C8, the code at the failing input.  For the tag `it's` with identifier 2
the statement of `AddTags` is `... VALUES ('it's',0);`, which the engine rejects;
`AddTags` returns that error, `AttachTagsToArticle` drops it, inserts the
association `(2, 2)` and returns no error.  An error of the association insert
itself (here: the malformed statement made from an empty list) is returned. -/
theorem AttachTagsToArticle_drops_AddTags_error :
    (AddTags exampleStore [Tag.mk 2 apostropheName 0]).2 = some (Err.storage "syntax error") ∧
    (AttachTagsToArticle exampleStore id 2 [Tag.mk 2 apostropheName 0]).2 = none ∧
    (AttachTagsToArticle exampleStore id 2 [Tag.mk 2 apostropheName 0]).1.article_tag
      = exampleStore.article_tag ++ [ArticleTag.mk 2 2] ∧
    (AttachTagsToArticle exampleStore id 2 []).2 = some (Err.storage "syntax error") := by
  decide

theorem mappingTagID_congr (s s2 : Store) (order : List Tag → List Tag) (tags : List Tag)
    (h : s.tag = s2.tag) : mappingTagID s order tags = mappingTagID s2 order tags := by
  rw [mappingTagID_eq, mappingTagID_eq, h]

theorem execFrom_none (s : Store) (cs : List Char) (fuel : Nat) (hcs : cs ≠ [])
    (h : s.execStatement cs = none) :
    Store.execFrom fuel s cs = (s, some (Err.storage "syntax error")) := by
  cases cs with
  | nil => exact absurd rfl hcs
  | cons c cs =>
    cases fuel with
    | zero => rfl
    | succ fuel => simp only [Store.execFrom, h]

set_option maxRecDepth 100000 in
/-- The association insert made from an empty list, `... VALUES;`, is rejected. -/
theorem Query_attachTagsQuery_nil (s : Store) (article_id : Int) :
    (Query s (attachTagsQuery article_id [])).2 = some (Err.storage "syntax error") := by
  have e : attachTagsQuery article_id [] = attachTagsQuery 0 [] := rfl
  have h1 : parseInsert "INSERT OR IGNORE INTO tag (name, type) VALUES "
      (parseTagRow s.tag.length) (attachTagsQuery 0 []).data = none := rfl
  have h2 : parseInsert "INSERT OR IGNORE INTO article_tag (article_id, tag_id) VALUES "
      parseAssocRow (attachTagsQuery 0 []).data = none := by decide
  have h : s.execStatement (attachTagsQuery 0 []).data = none := by
    unfold Store.execStatement
    rw [h1, h2]
  rw [e, Query, Store.Exec, execFrom_none s _ _ (by decide) h]

/-- A call of `AttachTagsToArticle` that returns no error: `mappingTagID` gave a
non-empty list `out` on the store left by `AddTags`, and the resulting store
has the pairs `(article_id, ID)` of `out` inserted. -/
theorem AttachTagsToArticle_ok (s : Store) (order : List Tag → List Tag) (article_id : Int)
    (tags : List Tag) (h : (AttachTagsToArticle s order article_id tags).2 = none) :
    ∃ out, out ≠ [] ∧ mappingTagID (AddTags s tags).1 order tags = Except.ok out ∧
      (AttachTagsToArticle s order article_id tags).1
        = (out.map fun v => ArticleTag.mk article_id v.ID).foldl Store.insertOrIgnoreAssoc
            (AddTags s tags).1 := by
  unfold AttachTagsToArticle at h ⊢
  cases hm : mappingTagID (AddTags s tags).1 order tags with
  | error e => simp only [hm] at h; exact absurd h (by simp)
  | ok out =>
    simp only [hm] at h ⊢
    have hne : out ≠ [] := by
      rintro rfl
      rw [Query_attachTagsQuery_nil] at h
      exact absurd h (by simp)
    refine ⟨out, hne, rfl, ?_⟩
    rw [Query, Exec_attachTagsQuery _ _ _ hne]

theorem AttachTagsToArticle_of_mapping (s : Store) (order : List Tag → List Tag)
    (article_id : Int) (tags out : List Tag) (hne : out ≠ [])
    (hm : mappingTagID (AddTags s tags).1 order tags = Except.ok out) :
    AttachTagsToArticle s order article_id tags
      = ((out.map fun v => ArticleTag.mk article_id v.ID).foldl Store.insertOrIgnoreAssoc
            (AddTags s tags).1, none) := by
  unfold AttachTagsToArticle
  simp only [hm]
  rw [Query, Exec_attachTagsQuery _ _ _ hne]

/-- The output of `mappingTagID` for two engine orders: both calls succeed or
both fail, and the outputs have the same entries. -/
theorem mappingTagID_orders (s : Store) (order order2 : List Tag → List Tag) (tags out : List Tag)
    (ho : ∀ l, (order l).Perm l) (ho2 : ∀ l, (order2 l).Perm l)
    (h : mappingTagID s order tags = Except.ok out) :
    ∃ out2, mappingTagID s order2 tags = Except.ok out2 ∧ out2.Perm out := by
  rw [mappingTagID_eq] at h ⊢
  by_cases hU : (tags.filter fun v => decide (v.ID = 0)) = []
  · rw [if_pos hU] at h ⊢
    cases h
    exact ⟨_, rfl, List.Perm.refl _⟩
  · rw [if_neg hU] at h ⊢
    split at h
    · rename_i hlen
      cases h
      rw [if_pos (by rw [(ho2 _).length_eq, ← (ho _).length_eq]; exact hlen)]
      exact ⟨_, rfl, List.Perm.append_right _ ((ho2 _).trans (ho _).symm)⟩
    · split at h <;> cases h

/-- A successful call of `AttachTagsToArticle` was made with a non-empty tag
list. -/
theorem AttachTagsToArticle_ne_nil (s : Store) (order : List Tag → List Tag) (article_id : Int)
    (tags : List Tag) (h : (AttachTagsToArticle s order article_id tags).2 = none) :
    tags ≠ [] := by
  obtain ⟨out, hout, hm, _⟩ := AttachTagsToArticle_ok s order article_id tags h
  rintro rfl
  rw [mappingTagID_eq] at hm
  simp at hm
  exact hout hm

/-- Where `AttachTagsToArticle` is idempotent.  For tags whose names have no
string delimiter in them: when a call for an article and a tag list returns no
error (the list is then not empty), a second call with the same article and the
same tags on the store the first call left (the engine returning the looked-up
rows in any order, each time) returns no error and leaves table `tag` and table
`article_tag` exactly as the first call left them. -/
theorem AttachTagsToArticle_idempotent (s : Store) (order order2 : List Tag → List Tag)
    (article_id : Int) (tags : List Tag)
    (ho : ∀ l, (order l).Perm l) (ho2 : ∀ l, (order2 l).Perm l)
    (hplain : ∀ v ∈ tags, quote ∉ v.Name.data)
    (h : (AttachTagsToArticle s order article_id tags).2 = none) :
    (AttachTagsToArticle (AttachTagsToArticle s order article_id tags).1 order2
        article_id tags).2 = none ∧
    (AttachTagsToArticle (AttachTagsToArticle s order article_id tags).1 order2
        article_id tags).1.tag = (AttachTagsToArticle s order article_id tags).1.tag ∧
    (AttachTagsToArticle (AttachTagsToArticle s order article_id tags).1 order2
        article_id tags).1.article_tag
      = (AttachTagsToArticle s order article_id tags).1.article_tag := by
  obtain ⟨out, hout, hm, hs⟩ := AttachTagsToArticle_ok s order article_id tags h
  have hne := AttachTagsToArticle_ne_nil s order article_id tags h
  have hrows : ∀ s0 : Store,
      (AddTags s0 tags).1 = (tags.map Tag.key).foldl Store.insertOrIgnoreTag s0 := by
    intro s0
    rw [AddTags_plain s0 tags hne hplain]
  generalize tags.map Tag.key = rows at hrows
  generalize AttachTagsToArticle s order article_id tags = res at hs h ⊢
  obtain ⟨_, ht1, _, hmem1, _⟩ := foldl_insertOrIgnoreAssoc
    (out.map fun v => ArticleTag.mk article_id v.ID) (AddTags s tags).1
  rw [← hs] at ht1 hmem1
  -- the second `AddTags` finds every row stored
  have hrows_in : ∀ row ∈ rows, row ∈ res.1.tag.map Tag.key := by
    intro row hrow
    rw [ht1, hrows s]
    exact (foldl_insertOrIgnoreTag rows s).2.2.2.2.2.1 row hrow
  obtain ⟨_, ha2, _, _, _, _, _, htag2⟩ := foldl_insertOrIgnoreTag rows res.1
  rw [← hrows res.1] at ha2 htag2
  have htag2 := htag2 hrows_in
  -- the second `mappingTagID` sees the same table
  have hm2 : mappingTagID (AddTags res.1 tags).1 order tags = Except.ok out := by
    rw [mappingTagID_congr _ (AddTags s tags).1 order tags (htag2.trans ht1)]
    exact hm
  obtain ⟨out2, hm2', hperm⟩ := mappingTagID_orders _ order order2 tags out ho ho2 hm2
  have hout2 : out2 ≠ [] := by
    intro h0
    rw [h0] at hperm
    exact hout (List.Perm.nil_eq hperm).symm
  rw [AttachTagsToArticle_of_mapping res.1 order2 article_id tags out2 hout2 hm2']
  obtain ⟨_, ht3, _, _, hsame⟩ := foldl_insertOrIgnoreAssoc
    (out2.map fun v => ArticleTag.mk article_id v.ID) (AddTags res.1 tags).1
  refine ⟨rfl, ht3.trans htag2, ?_⟩
  rw [hsame, ha2]
  intro r hr
  rw [ha2, hmem1]
  right
  obtain ⟨v, hv, rfl⟩ := List.mem_map.mp hr
  exact List.mem_map.mpr ⟨v, hperm.subset hv, rfl⟩

set_option maxRecDepth 100000 in
/-- The idempotent case on `exampleStore`: attaching `go`, `zig` (new) and the
tag with identifier 7 to article 2, the engine returning rows in table order
the first time and in reverse order the second time. -/
theorem AttachTagsToArticle_idempotent_witness :
    (∀ l : List Tag, (id l).Perm l) ∧ (∀ l : List Tag, (List.reverse l).Perm l) ∧
    (∀ v ∈ [Tag.mk 0 "go" 0, Tag.mk 0 "zig" 0, Tag.mk 7 "x" 0], quote ∉ v.Name.data) ∧
    (AttachTagsToArticle exampleStore id 2
      [Tag.mk 0 "go" 0, Tag.mk 0 "zig" 0, Tag.mk 7 "x" 0]).2 = none ∧
    (AttachTagsToArticle (AttachTagsToArticle exampleStore id 2
        [Tag.mk 0 "go" 0, Tag.mk 0 "zig" 0, Tag.mk 7 "x" 0]).1 List.reverse 2
      [Tag.mk 0 "go" 0, Tag.mk 0 "zig" 0, Tag.mk 7 "x" 0]).2 = none ∧
    (AttachTagsToArticle (AttachTagsToArticle exampleStore id 2
        [Tag.mk 0 "go" 0, Tag.mk 0 "zig" 0, Tag.mk 7 "x" 0]).1 List.reverse 2
      [Tag.mk 0 "go" 0, Tag.mk 0 "zig" 0, Tag.mk 7 "x" 0]).1.article_tag
      = [ArticleTag.mk 1 1, ArticleTag.mk 1 2, ArticleTag.mk 2 1, ArticleTag.mk 2 4,
          ArticleTag.mk 2 7] :=
  have h := AttachTagsToArticle_idempotent exampleStore id List.reverse 2
    [Tag.mk 0 "go" 0, Tag.mk 0 "zig" 0, Tag.mk 7 "x" 0]
    (fun l => List.Perm.refl l) List.reverse_perm (by decide) (by decide)
  ⟨fun l => List.Perm.refl l, List.reverse_perm, by decide, by decide, h.1,
    h.2.2.trans (by decide)⟩

set_option maxRecDepth 100000 in
/-- C6, the code at the failing input.  On `exampleStore`, for article 2 and the
one tag with identifier 1 and the name `x',(SELECT count(*) FROM tag)),('y`, the
text of `AddTags` is
`INSERT OR IGNORE INTO tag (name, type) VALUES ('x',(SELECT count(*) FROM tag)),('y',0);`.
The first call returns no error and leaves four tags, `x` with the type 2 among
them.  The second call with the same article and the same tag returns no error
as well, but the count is 4 by then: it adds a fifth row to table `tag`, so it
does not leave the table as the first call left it. -/
theorem AttachTagsToArticle_second_call_adds_tag :
    (AttachTagsToArticle exampleStore id 2 [Tag.mk 1 countingName 0]).2 = none ∧
    (AttachTagsToArticle exampleStore id 2 [Tag.mk 1 countingName 0]).1.tag
      = [Tag.mk 1 "go" 0, Tag.mk 2 "rust" 0, Tag.mk 3 "x" 2, Tag.mk 4 "y" 0] ∧
    (AttachTagsToArticle (AttachTagsToArticle exampleStore id 2 [Tag.mk 1 countingName 0]).1
      id 2 [Tag.mk 1 countingName 0]).2 = none ∧
    (AttachTagsToArticle (AttachTagsToArticle exampleStore id 2 [Tag.mk 1 countingName 0]).1
      id 2 [Tag.mk 1 countingName 0]).1.tag
      = [Tag.mk 1 "go" 0, Tag.mk 2 "rust" 0, Tag.mk 3 "x" 2, Tag.mk 4 "y" 0, Tag.mk 5 "x" 4] ∧
    (AttachTagsToArticle (AttachTagsToArticle exampleStore id 2 [Tag.mk 1 countingName 0]).1
      id 2 [Tag.mk 1 countingName 0]).1.tag
      ≠ (AttachTagsToArticle exampleStore id 2 [Tag.mk 1 countingName 0]).1.tag := by
  decide

/-! ### `GetTagOfArticle` after a sequence of `AttachTagsToArticle` -/

theorem GetTagOfArticle_eq (s : Store) (order : List Tag → List Tag) (article_id : Int) :
    GetTagOfArticle s order article_id
      = Except.ok (order ((s.joinArticleTagTag.filter fun rt =>
          decide (rt.1.article_id = article_id)).map fun rt => rt.2)) := by
  have hp : placeholderCount getTagOfArticleQuery = 1 := by decide
  unfold GetTagOfArticle Store.queryTagOfArticle
  rw [hp]
  simp

/-- The entries of the output of `mappingTagID` when every candidate is
unresolved: stored rows carrying requested `(name, type)` pairs, one for every
candidate. -/
theorem mappingTagID_all_unresolved (s : Store) (order : List Tag → List Tag)
    (tags out : List Tag) (hkey : s.TagKeyUnique) (horder : ∀ l, (order l).Perm l)
    (hne : tags ≠ []) (hun : ∀ c ∈ tags, c.ID = 0)
    (h : mappingTagID s order tags = Except.ok out) :
    (∀ t ∈ out, t ∈ s.tag ∧ t.key ∈ tags.map Tag.key) ∧
    (∀ c ∈ tags, ∃ t ∈ out, t.key = c.key) := by
  have hU : (tags.filter fun v => decide (v.ID = 0)) = tags :=
    List.filter_eq_self.mpr (fun c hc => by simpa using hun c hc)
  have hM : (tags.filter fun v => decide (v.ID ≠ 0)) = [] :=
    List.filter_eq_nil_iff.mpr (fun c hc => by simpa using hun c hc)
  rw [mappingTagID_eq, hU, hM, if_neg hne] at h
  obtain ⟨hnd, hsub⟩ := lookup_keys s hkey tags
  generalize hF : (s.tag.filter fun t =>
      decide ((SqlValue.text t.Name, SqlValue.integer t.Type_)
        ∈ tags.map fun v => (SqlValue.text v.Name, SqlValue.integer v.Type_))) = F at h hnd hsub
  have hFs : ∀ t ∈ F, t ∈ s.tag := by
    intro t ht; rw [← hF] at ht; exact (List.mem_filter.mp ht).1
  have hperm := horder F
  split at h
  · rename_i hlen
    cases h
    have hkeys : (F.map Tag.key).Perm (tags.map Tag.key) :=
      (List.subperm_of_subset hnd hsub).perm_of_length_le
        (by rw [List.length_map, List.length_map, ← hperm.length_eq, hlen])
    refine ⟨?_, ?_⟩
    · intro t ht
      rw [List.append_nil] at ht
      have htF := hperm.subset ht
      exact ⟨hFs t htF, hsub (List.mem_map_of_mem _ htF)⟩
    · intro c hc
      obtain ⟨t, ht, htk⟩ := List.mem_map.mp (hkeys.symm.subset (List.mem_map_of_mem _ hc))
      exact ⟨t, List.mem_append_left _ (hperm.symm.subset ht), htk⟩
  · split at h <;> cases h

/-- One successful `AttachTagsToArticle` call with unresolved candidates whose
names have no string delimiter in them keeps the schema constraints and extends
the set `K` of `(name, type)` pairs attached to the article by the pairs of the
call. -/
theorem AttachTagsToArticle_step (s s2 : Store) (order : List Tag → List Tag) (A : Int)
    (tags : List Tag) (K : String × Int → Prop)
    (hid : s.TagIdUnique) (hkey : s.TagKeyUnique) (hassoc : s.AssocUnique)
    (horder : ∀ l, (order l).Perm l)
    (hinv1 : ∀ r ∈ s.article_tag, r.article_id = A → ∃ t ∈ s.tag, t.ID = r.tag_id ∧ K t.key)
    (hinv2 : ∀ k, K k → ∃ t ∈ s.tag, t.key = k ∧ ArticleTag.mk A t.ID ∈ s.article_tag)
    (hun : ∀ c ∈ tags, c.ID = 0) (hplain : ∀ c ∈ tags, quote ∉ c.Name.data)
    (h : AttachTagsToArticle s order A tags = (s2, none)) :
    s2.TagIdUnique ∧ s2.TagKeyUnique ∧ s2.AssocUnique ∧
    (∀ r ∈ s2.article_tag, r.article_id = A →
      ∃ t ∈ s2.tag, t.ID = r.tag_id ∧ (K t.key ∨ t.key ∈ tags.map Tag.key)) ∧
    (∀ k, (K k ∨ k ∈ tags.map Tag.key) →
      ∃ t ∈ s2.tag, t.key = k ∧ ArticleTag.mk A t.ID ∈ s2.article_tag) := by
  have h2 : (AttachTagsToArticle s order A tags).2 = none := by rw [h]
  obtain ⟨out, hout, hm, hs⟩ := AttachTagsToArticle_ok s order A tags h2
  rw [h] at hs
  simp only at hs
  have hne := AttachTagsToArticle_ne_nil s order A tags h2
  rw [AddTags_plain s tags hne hplain] at hm hs
  simp only at hm hs
  obtain ⟨_, ha1, hsub1, hk1, hi1, _, _, _⟩ := foldl_insertOrIgnoreTag (tags.map Tag.key) s
  generalize (tags.map Tag.key).foldl Store.insertOrIgnoreTag s = s1
    at hm hs ha1 hsub1 hk1 hi1
  obtain ⟨hout1, hout2⟩ := mappingTagID_all_unresolved s1 order tags out (hk1 hkey) horder hne hun hm
  obtain ⟨_, ht2, hu2, hmem2, _⟩ := foldl_insertOrIgnoreAssoc
    (out.map fun v => ArticleTag.mk A v.ID) s1
  rw [← hs] at ht2 hu2 hmem2
  refine ⟨?_, ?_, ?_, ?_, ?_⟩
  · unfold Store.TagIdUnique; rw [ht2]; exact hi1 hid
  · unfold Store.TagKeyUnique; rw [ht2]; exact hk1 hkey
  · apply hu2; unfold Store.AssocUnique; rw [ha1]; exact hassoc
  · intro r hr hrA
    rw [hmem2, ha1] at hr
    rw [ht2]
    rcases hr with hr | hr
    · obtain ⟨t, ht, hid', hK⟩ := hinv1 r hr hrA
      exact ⟨t, hsub1 t ht, hid', Or.inl hK⟩
    · obtain ⟨v, hv, rfl⟩ := List.mem_map.mp hr
      exact ⟨v, (hout1 v hv).1, rfl, Or.inr (hout1 v hv).2⟩
  · intro k hk
    rw [ht2]
    rcases hk with hk | hk
    · obtain ⟨t, ht, htk, hat⟩ := hinv2 k hk
      refine ⟨t, hsub1 t ht, htk, ?_⟩
      rw [hmem2, ha1]; exact Or.inl hat
    · obtain ⟨c, hc, rfl⟩ := List.mem_map.mp hk
      obtain ⟨t, ht, htk⟩ := hout2 c hc
      refine ⟨t, (hout1 t ht).1, htk, ?_⟩
      rw [hmem2]
      exact Or.inr (List.mem_map.mpr ⟨t, ht, rfl⟩)

theorem attachAll_inv (order : List Tag → List Tag) (A : Int)
    (horder : ∀ l, (order l).Perm l) (calls : List (List Tag)) :
    ∀ (s s2 : Store) (K : String × Int → Prop),
    s.TagIdUnique → s.TagKeyUnique → s.AssocUnique →
    (∀ r ∈ s.article_tag, r.article_id = A → ∃ t ∈ s.tag, t.ID = r.tag_id ∧ K t.key) →
    (∀ k, K k → ∃ t ∈ s.tag, t.key = k ∧ ArticleTag.mk A t.ID ∈ s.article_tag) →
    (∀ call ∈ calls, ∀ c ∈ call, c.ID = 0) →
    (∀ call ∈ calls, ∀ c ∈ call, quote ∉ c.Name.data) →
    attachAll order A s calls = some s2 →
    s2.TagIdUnique ∧ s2.TagKeyUnique ∧ s2.AssocUnique ∧
    (∀ r ∈ s2.article_tag, r.article_id = A →
      ∃ t ∈ s2.tag, t.ID = r.tag_id ∧ (K t.key ∨ ∃ call ∈ calls, t.key ∈ call.map Tag.key)) ∧
    (∀ k, (K k ∨ ∃ call ∈ calls, k ∈ call.map Tag.key) →
      ∃ t ∈ s2.tag, t.key = k ∧ ArticleTag.mk A t.ID ∈ s2.article_tag) := by
  induction calls with
  | nil =>
    intro s s2 K hid hkey hassoc h1 h2 _ _ hrun
    simp only [attachAll, Option.some.injEq] at hrun
    subst hrun
    refine ⟨hid, hkey, hassoc, ?_, ?_⟩
    · intro r hr hrA
      obtain ⟨t, ht, e, hK⟩ := h1 r hr hrA
      exact ⟨t, ht, e, Or.inl hK⟩
    · intro k hk
      rcases hk with hk | ⟨call, hcall, _⟩
      · exact h2 k hk
      · exact absurd hcall (List.not_mem_nil _)
  | cons tags calls ih =>
    intro s s2 K hid hkey hassoc h1 h2 hun hplain hrun
    rw [attachAll] at hrun
    cases hres : AttachTagsToArticle s order A tags with
    | mk s1 err =>
      rw [hres] at hrun
      cases err with
      | some e => simp at hrun
      | none =>
        simp only at hrun
        obtain ⟨i1, k1, a1, v1, v2⟩ := AttachTagsToArticle_step s s1 order A tags K hid hkey
          hassoc horder h1 h2 (hun tags (List.mem_cons_self _ _))
          (hplain tags (List.mem_cons_self _ _)) hres
        obtain ⟨i2, k2, a2, w1, w2⟩ := ih s1 s2 (fun k => K k ∨ k ∈ tags.map Tag.key)
          i1 k1 a1 v1 v2 (fun call hc => hun call (List.mem_cons_of_mem _ hc))
          (fun call hc => hplain call (List.mem_cons_of_mem _ hc)) hrun
        refine ⟨i2, k2, a2, ?_, ?_⟩
        · intro r hr hrA
          obtain ⟨t, ht, e, hK⟩ := w1 r hr hrA
          refine ⟨t, ht, e, ?_⟩
          rcases hK with (hK | hK) | ⟨call, hcall, hK⟩
          · exact Or.inl hK
          · exact Or.inr ⟨tags, List.mem_cons_self _ _, hK⟩
          · exact Or.inr ⟨call, List.mem_cons_of_mem _ hcall, hK⟩
        · intro k hk
          apply w2
          rcases hk with hk | ⟨call, hcall, hk⟩
          · exact Or.inl (Or.inl hk)
          · rcases List.mem_cons.mp hcall with rfl | hcall
            · exact Or.inl (Or.inr hk)
            · exact Or.inr ⟨call, hcall, hk⟩

/-- Where `GetTagOfArticle` returns the union of the attached tags.  On a store
that satisfies the schema constraints and has no association row for article
`A`, after a sequence of `AttachTagsToArticle(A, ...)` calls with unresolved
candidates (`ID = 0`, identified by name and type) whose names have no string
delimiter in them, all returning no error, `GetTagOfArticle(A)` returns, in
whatever order, exactly the union of the attached tags: every `(name, type)` of
a candidate of a call is the `(name, type)` of a returned tag, every returned
tag has the `(name, type)` of a candidate of a call, and no `(name, type)` is
returned twice. -/
theorem GetTagOfArticle_after_attach (s s2 : Store) (order order2 : List Tag → List Tag)
    (A : Int) (calls : List (List Tag))
    (hid : s.TagIdUnique) (hkey : s.TagKeyUnique) (hassoc : s.AssocUnique)
    (horder : ∀ l, (order l).Perm l) (horder2 : ∀ l, (order2 l).Perm l)
    (hnone : ∀ r ∈ s.article_tag, r.article_id ≠ A)
    (hun : ∀ call ∈ calls, ∀ c ∈ call, c.ID = 0)
    (hplain : ∀ call ∈ calls, ∀ c ∈ call, quote ∉ c.Name.data)
    (hrun : attachAll order A s calls = some s2) :
    ∃ res, GetTagOfArticle s2 order2 A = Except.ok res ∧
      (res.map Tag.key).Nodup ∧
      ∀ k, k ∈ res.map Tag.key ↔ ∃ call ∈ calls, ∃ c ∈ call, c.key = k := by
  obtain ⟨i2, k2, a2, w1, w2⟩ := attachAll_inv order A horder calls s s2 (fun _ => False)
    hid hkey hassoc (fun r hr hrA => absurd hrA (hnone r hr)) (fun _ h => h.elim) hun hplain hrun
  have hperm := (horder2 ((s2.joinArticleTagTag.filter fun rt =>
      decide (rt.1.article_id = A)).map fun rt => rt.2)).map Tag.key
  refine ⟨_, GetTagOfArticle_eq s2 order2 A, ?_, ?_⟩
  · rw [hperm.nodup_iff, List.map_map]
    apply List.Nodup.map_on _ ((nodup_joinArticleTagTag s2 (List.Nodup.of_map _ k2) a2).filter _)
    rintro ⟨r, t⟩ hr ⟨r', t'⟩ hr' hf
    rw [List.mem_filter, mem_joinArticleTagTag, decide_eq_true_eq] at hr hr'
    have htt : t = t' := key_inj_of_unique s2 k2 t t' hr.1.2.1 hr'.1.2.1 hf
    subst htt
    have hrr : r = r' := by
      cases r; cases r'
      simp only [ArticleTag.mk.injEq]
      exact ⟨hr.2.trans hr'.2.symm, hr.1.2.2.symm.trans hr'.1.2.2⟩
    rw [hrr]
  · intro k
    rw [hperm.mem_iff]
    constructor
    · intro hk
      obtain ⟨t, ht, rfl⟩ := List.mem_map.mp hk
      obtain ⟨⟨r, t'⟩, hrt, rfl⟩ := List.mem_map.mp ht
      rw [List.mem_filter, mem_joinArticleTagTag, decide_eq_true_eq] at hrt
      obtain ⟨t0, ht0, hid0, hK⟩ := w1 r hrt.1.1 hrt.2
      have : t0 = t' :=
        List.inj_on_of_nodup_map i2 ht0 hrt.1.2.1 (hid0.trans hrt.1.2.2.symm)
      subst this
      rcases hK with hK | ⟨call, hcall, hK⟩
      · exact hK.elim
      · obtain ⟨c, hc, hck⟩ := List.mem_map.mp hK
        exact ⟨call, hcall, c, hc, hck⟩
    · rintro ⟨call, hcall, c, hc, rfl⟩
      obtain ⟨t, ht, htk, hat⟩ := w2 c.key (Or.inr ⟨call, hcall, List.mem_map_of_mem _ hc⟩)
      refine List.mem_map.mpr ⟨t, List.mem_map.mpr ⟨(ArticleTag.mk A t.ID, t), ?_, rfl⟩, htk⟩
      rw [List.mem_filter, mem_joinArticleTagTag, decide_eq_true_eq]
      exact ⟨⟨hat, ht, rfl⟩, rfl⟩

set_option maxRecDepth 100000 in
/-- The union on `exampleStore`: two calls for article 3, the first with `go`
and `zig`, the second with `zig` and `rust`; the engine returns the tags of the
article in reverse order. -/
theorem GetTagOfArticle_after_attach_witness :
    exampleStore.TagIdUnique ∧ exampleStore.TagKeyUnique ∧ exampleStore.AssocUnique ∧
    (∀ l : List Tag, (id l).Perm l) ∧ (∀ l : List Tag, (List.reverse l).Perm l) ∧
    (∀ r ∈ exampleStore.article_tag, r.article_id ≠ 3) ∧
    (∀ call ∈ [[Tag.mk 0 "go" 0, Tag.mk 0 "zig" 0], [Tag.mk 0 "zig" 0, Tag.mk 0 "rust" 0]],
      ∀ c ∈ call, c.ID = 0) ∧
    (∀ call ∈ [[Tag.mk 0 "go" 0, Tag.mk 0 "zig" 0], [Tag.mk 0 "zig" 0, Tag.mk 0 "rust" 0]],
      ∀ c ∈ call, quote ∉ c.Name.data) ∧
    attachAll id 3 exampleStore
      [[Tag.mk 0 "go" 0, Tag.mk 0 "zig" 0], [Tag.mk 0 "zig" 0, Tag.mk 0 "rust" 0]]
      = some attachedStore ∧
    ∃ res, GetTagOfArticle attachedStore List.reverse 3 = Except.ok res ∧
      (res.map Tag.key).Nodup ∧
      ∀ k, k ∈ res.map Tag.key ↔
        ∃ call ∈ [[Tag.mk 0 "go" 0, Tag.mk 0 "zig" 0], [Tag.mk 0 "zig" 0, Tag.mk 0 "rust" 0]],
          ∃ c ∈ call, c.key = k :=
  ⟨by decide, by decide, by decide, fun l => List.Perm.refl l, List.reverse_perm, by decide,
    by decide, by decide, by decide,
    GetTagOfArticle_after_attach exampleStore attachedStore id List.reverse 3
      [[Tag.mk 0 "go" 0, Tag.mk 0 "zig" 0], [Tag.mk 0 "zig" 0, Tag.mk 0 "rust" 0]]
      (by decide) (by decide) (by decide) (fun l => List.Perm.refl l) List.reverse_perm
      (by decide) (by decide) (by decide) (by decide)⟩

set_option maxRecDepth 100000 in
/-- C7, the code at the failing input.  The store `namedStore` satisfies the
schema constraints, has no association row for article 3 and holds, besides
`go` and `rust`, a tag named `assocInsertName`; `AddTags` leaves it when it is
given that name with the delimiters doubled.  The one call
`AttachTagsToArticle(3, ...)` with the unresolved candidate of that name returns
no error: the text of `AddTags` holds the statement
`INSERT OR IGNORE INTO article_tag (article_id, tag_id) VALUES (3,2);`, which
the engine runs, and the lookup finds the stored tag of that name.  Afterwards
`GetTagOfArticle(3)` returns two tags, the attached one and `rust`, which was
never attached to article 3. -/
theorem GetTagOfArticle_returns_unattached_tag :
    AddTags exampleStore [Tag.mk 0 assocInsertNameDoubled 0] = (namedStore, none) ∧
    namedStore.TagIdUnique ∧ namedStore.TagKeyUnique ∧ namedStore.AssocUnique ∧
    (∀ r ∈ namedStore.article_tag, r.article_id ≠ 3) ∧
    (∀ c ∈ [Tag.mk 0 assocInsertName 0], c.ID = 0) ∧
    (AttachTagsToArticle namedStore id 3 [Tag.mk 0 assocInsertName 0]).2 = none ∧
    (AttachTagsToArticle namedStore id 3 [Tag.mk 0 assocInsertName 0]).1.article_tag
      = namedStore.article_tag ++ [ArticleTag.mk 3 2, ArticleTag.mk 3 3] ∧
    GetTagOfArticle (AttachTagsToArticle namedStore id 3 [Tag.mk 0 assocInsertName 0]).1 id 3
      = Except.ok [Tag.mk 2 "rust" 0, Tag.mk 3 assocInsertName 0] ∧
    (Tag.mk 2 "rust" 0).key ∉ [Tag.mk 0 assocInsertName 0].map Tag.key := by
  decide

/-! ### `NullableString` and JSON -/

theorem char_scalar (c : Char) :
    c.toNat < 0xD800 ∨ (0xDFFF < c.toNat ∧ c.toNat < 0x110000) := by
  have h := c.valid
  unfold UInt32.isValidChar Nat.isValidChar at h
  exact h

/-- Go `utf8.DecodeRune` reads back what `utf8.AppendRune` writes for a
Unicode scalar value outside ASCII. -/
theorem decodeRune_encodeRune (n : Nat) (hv : n < 0xD800 ∨ (0xDFFF < n ∧ n < 0x110000))
    (hn : 0x80 ≤ n) (rest : List Nat) :
    decodeRune (encodeRune n ++ rest) = (n, (encodeRune n).length) := by
  unfold encodeRune
  rw [if_neg (by omega)]
  by_cases h2 : n < 0x800
  · rw [if_pos h2]
    simp only [List.cons_append, List.nil_append, decodeRune, isCont, List.length_cons,
      List.length_nil]
    rw [if_neg (by omega), if_pos (by omega)]
    simp only [Bool.and_eq_true, decide_eq_true_eq]
    rw [if_pos (by omega)]
    congr 1
    omega
  · rw [if_neg h2, if_neg (by omega)]
    by_cases h3 : n < 0x10000
    · rw [if_pos h3]
      simp only [List.cons_append, List.nil_append, decodeRune, isCont, List.length_cons,
        List.length_nil]
      rw [if_neg (by omega), if_neg (by omega), if_pos (by omega)]
      simp only [Bool.and_eq_true, decide_eq_true_eq]
      rw [if_pos (by
        refine ⟨?_, ?_, ?_, ?_⟩
        · split <;> omega
        · split <;> omega
        · omega
        · omega)]
      congr 1
      omega
    · rw [if_neg h3]
      simp only [List.cons_append, List.nil_append, decodeRune, isCont, List.length_cons,
        List.length_nil]
      rw [if_neg (by omega), if_neg (by omega), if_neg (by omega), if_pos (by omega)]
      simp only [Bool.and_eq_true, decide_eq_true_eq]
      rw [if_pos (by
        refine ⟨?_, ?_, ⟨?_, ?_⟩, ?_, ?_⟩
        · split <;> omega
        · split <;> omega
        · omega
        · omega
        · omega
        · omega)]
      congr 1
      omega

/-- The encoding of a scalar value outside ASCII: a first byte outside ASCII
and at least one more byte. -/
theorem encodeRune_multibyte (n : Nat) (hv : n < 0xD800 ∨ (0xDFFF < n ∧ n < 0x110000))
    (hn : 0x80 ≤ n) :
    ∃ b t, encodeRune n = b :: t ∧ 0x80 ≤ b ∧ 1 ≤ t.length := by
  unfold encodeRune
  rw [if_neg (by omega)]
  by_cases h2 : n < 0x800
  · rw [if_pos h2]; exact ⟨_, _, rfl, by omega, by simp⟩
  · rw [if_neg h2, if_neg (by omega)]
    by_cases h3 : n < 0x10000
    · rw [if_pos h3]; exact ⟨_, _, rfl, by omega, by simp⟩
    · rw [if_neg h3]; exact ⟨_, _, rfl, by omega, by simp⟩

theorem escapeFrom_skip (pre : List Nat) : ∀ (rest : List Nat),
    escapeFrom pre.length (pre ++ rest) = escapeFrom 0 rest := by
  induction pre with
  | nil => intro rest; rfl
  | cons a pre ih =>
    intro rest
    rw [List.length_cons, List.cons_append, escapeFrom, ih]

theorem scanString_skip (pre : List Nat) : ∀ (rest : List Nat), rest ≠ [] →
    scanString pre.length (pre ++ rest) = scanString 0 rest := by
  induction pre with
  | nil => intro rest _; rfl
  | cons a pre ih =>
    intro rest h
    rw [List.length_cons, List.cons_append, scanString, ih rest h]

/-- The decoder reads back the escape (or the byte itself) that `appendString`
writes for an ASCII byte. -/
theorem scanString_escape_ascii (n : Nat) (hn : n < 0x80) (X : List Nat) :
    scanString 0 ((if htmlSafe n then [n] else escapeByte n) ++ X)
      = (scanString 0 X).map fun r => (n :: r.1, r.2) := by
  by_cases hs : htmlSafe n = true
  · rw [if_pos hs]
    simp only [htmlSafe, Bool.and_eq_true, decide_eq_true_eq, Bool.not_eq_true',
      Bool.or_eq_false_iff, decide_eq_false_iff_not] at hs
    have h34 : n ≠ 34 := by omega
    have h92 : n ≠ 92 := by omega
    have h20 : ¬ n < 0x20 := by omega
    rw [List.singleton_append, scanString.eq_def]
    simp only [h34, h92, h20, hn, if_false, if_true]
  · rw [if_neg hs]
    have hcases : n < 32 ∨ n = 34 ∨ n = 38 ∨ n = 60 ∨ n = 62 ∨ n = 92 := by
      by_contra hc
      apply hs
      simp only [htmlSafe, Bool.and_eq_true, decide_eq_true_eq, Bool.not_eq_true',
        Bool.or_eq_false_iff, decide_eq_false_iff_not]
      omega
    rcases hcases with h | rfl | rfl | rfl | rfl | rfl
    · interval_cases n <;> rfl
    all_goals rfl

theorem scanString_lineSeparator (X : List Nat) :
    scanString 0 (bytesOf "\\u202" ++ [hexDigit (0x2028 % 16)] ++ X)
      = (scanString 0 X).map fun r => (encodeRune 0x2028 ++ r.1, r.2) := rfl

theorem scanString_paragraphSeparator (X : List Nat) :
    scanString 0 (bytesOf "\\u202" ++ [hexDigit (0x2029 % 16)] ++ X)
      = (scanString 0 X).map fun r => (encodeRune 0x2029 ++ r.1, r.2) := rfl

/-- The string decoder of `encoding/json` reads back what `appendString` writes
for the bytes of a well-formed UTF-8 text. -/
theorem scanString_escapeFrom (s : List Char) (rest : List Nat) :
    scanString 0 (escapeFrom 0 (utf8 s) ++ 34 :: rest) = some (utf8 s, rest) := by
  induction s with
  | nil => rfl
  | cons c s ih =>
    have hu : utf8 (c :: s) = encodeRune c.toNat ++ utf8 s := rfl
    rw [hu]
    have hv := char_scalar c
    generalize c.toNat = n at hv
    by_cases hn : n < 0x80
    · have he : encodeRune n = [n] := by unfold encodeRune; rw [if_pos hn]
      have hesc : escapeFrom 0 (n :: utf8 s)
          = (if htmlSafe n then [n] else escapeByte n) ++ escapeFrom 0 (utf8 s) := by
        rw [escapeFrom, if_pos hn]
      rw [he, List.singleton_append, hesc, List.append_assoc, scanString_escape_ascii n hn, ih]
      rfl
    · have hn2 : 0x80 ≤ n := by omega
      obtain ⟨b, t, he, hb, ht⟩ := encodeRune_multibyte n hv hn2
      have hlen : (encodeRune n).length = t.length + 1 := by rw [he]; rfl
      have hdec : ∀ Y, decodeRune (b :: (t ++ Y)) = (n, t.length + 1) := by
        intro Y
        have := decodeRune_encodeRune n hv hn2 Y
        rw [hlen, he] at this
        exact this
      have hskipE : escapeFrom t.length (t ++ utf8 s) = escapeFrom 0 (utf8 s) :=
        escapeFrom_skip t _
      have hskipS : scanString t.length (t ++ (escapeFrom 0 (utf8 s) ++ 34 :: rest))
          = scanString 0 (escapeFrom 0 (utf8 s) ++ 34 :: rest) :=
        scanString_skip t _ (by simp)
      have hb1 : ¬ b < 0x80 := by omega
      rw [he, List.cons_append, escapeFrom, if_neg hb1, hdec]
      simp only [Nat.add_sub_cancel]
      rw [if_neg (by omega), hskipE]
      by_cases hls : n = 0x2028 ∨ n = 0x2029
      · rw [if_pos hls]
        rcases hls with rfl | rfl
        · rw [List.append_assoc, scanString_lineSeparator, ih, he]
          rfl
        · rw [List.append_assoc, scanString_paragraphSeparator, ih, he]
          rfl
      · rw [if_neg hls]
        have htake : (b :: (t ++ utf8 s)).take (t.length + 1) = b :: t := by
          rw [List.take_succ_cons, List.take_left]
        rw [htake, List.cons_append, List.cons_append, List.append_assoc, scanString.eq_def]
        have h34 : b ≠ 34 := by omega
        have h92 : b ≠ 92 := by omega
        have h20 : ¬ b < 0x20 := by omega
        simp only [h34, h92, h20, hb1, if_false, hdec, Nat.add_sub_cancel, hskipS, ih]
        rw [he]
        rfl

theorem UnmarshalJSON_string (lib : JsonLib) (ns : NullableString) (s : List Char) :
    NullableString.UnmarshalJSON lib ns (jsonMarshalString (utf8 s))
      = (NullableString.mk (NullString.mk (utf8 s) true), none) := by
  have hp : ∀ fuel, parseValue (fuel + 1) 0 (skipSpace (jsonMarshalString (utf8 s)))
      = some (JsonKind.string (utf8 s), [], []) := by
    intro fuel
    have h1 : skipSpace (jsonMarshalString (utf8 s)) = 34 :: (escapeFrom 0 (utf8 s) ++ [34]) := rfl
    rw [h1, parseValue]
    simp only [if_true, scanString_escapeFrom, Option.map_some']
  unfold NullableString.UnmarshalJSON jsonUnmarshal
  rw [show 2 * (jsonMarshalString (utf8 s)).length + 2
    = (2 * (jsonMarshalString (utf8 s)).length + 1) + 1 from rfl, hp]
  rfl

theorem UnmarshalJSON_null (lib : JsonLib) :
    NullableString.UnmarshalJSON lib NullableString.zero (bytesOf "null")
      = (NullableString.mk (NullString.mk [] false), none) := rfl

/-- C9 fails as stated: a present `NullableString` whose string is the single
byte `0xFF` (not well-formed UTF-8) is marshalled as `"\ufffd"`, and
unmarshalling that yields the three bytes of U+FFFD, not the same string. -/
theorem NullableString_roundtrip_invalid_utf8 :
    (NullableString.mk (NullString.mk [0xFF] true)).MarshalJSON
      = Except.ok (bytesOf "\"\\ufffd\"") ∧
    NullableString.UnmarshalJSON permissiveJsonLib NullableString.zero (bytesOf "\"\\ufffd\"")
      = (NullableString.mk (NullString.mk [0xEF, 0xBF, 0xBD] true), none) ∧
    ([0xEF, 0xBF, 0xBD] : List Nat) ≠ [0xFF] := by
  decide

/-- C9, amended.  Whatever the two unmodelled steps of the library do:
marshalling an absent `NullableString` (whatever string it holds) and
unmarshalling the output into a zero value succeeds and yields an absent
field; marshalling a present `NullableString` whose string is well-formed UTF-8
(the bytes of a text `s`, the empty one included) and unmarshalling the output
into a zero value succeeds and yields a present field holding the same
bytes. -/
theorem NullableString_json_roundtrip (lib : JsonLib) (str : List Nat) (s : List Char) :
    (∃ data, (NullableString.mk (NullString.mk str false)).MarshalJSON = Except.ok data ∧
      NullableString.UnmarshalJSON lib NullableString.zero data
        = (NullableString.mk (NullString.mk [] false), none)) ∧
    (∃ data, (NullableString.mk (NullString.mk (utf8 s) true)).MarshalJSON = Except.ok data ∧
      NullableString.UnmarshalJSON lib NullableString.zero data
        = (NullableString.mk (NullString.mk (utf8 s) true), none)) ∧
    (∃ data, (NullableString.mk (NullString.mk [] true)).MarshalJSON = Except.ok data ∧
      NullableString.UnmarshalJSON lib NullableString.zero data
        = (NullableString.mk (NullString.mk [] true), none)) :=
  ⟨⟨_, rfl, UnmarshalJSON_null lib⟩,
    ⟨_, rfl, UnmarshalJSON_string lib NullableString.zero s⟩,
    ⟨_, rfl, UnmarshalJSON_string lib NullableString.zero []⟩⟩

end GoTagSearch
